import Mathlib

/-!
JXON: a shallow embedding of `src/JXON.js`

The development embeds `convertValue`, `getAllChildrenElements`,
`JXONParser.prototype.parseNode` and the tree part of
`JXONParser.prototype.parseXML`.

Conventions of the embedding.

* JavaScript strings are Lean strings; every character the code inspects
  (white space, digits, ASCII letters) lies in the Basic Multilingual Plane.
* A JavaScript Number is a `JNum`.  A finite Number is kept as the exact
  decimal fraction its literal denotes (`fin m k` is `m / 10 ^ k`, with no
  trailing zero in `m` when `k > 0`); the rounding to the nearest double and
  the sign of zero are not represented.  Overflow to `Infinity` is
  represented, at the exact round-to-nearest threshold.
* `Date.parse` accepts implementation-defined formats, so whether it yields a
  finite time value is a parameter (`Runtime.dateParse`).  The properties
  that `Object.prototype` carries besides the standard ones differ between
  engines as well (`Runtime.objectPrototype`).
* The name of an element or attribute node in a DOM tree is an XML Name: it
  is not empty and starts with a letter, `_` or `:`.  The property keys the
  code forms (`""`, `"#text"`, `"@" + name`, `name`) are therefore pairwise
  different strings and are kept apart by the constructors of `Key`.
* Assignment to the key `__proto__` changes the prototype of the object in
  some engines and creates a property in others; the embedding raises
  `JsError.unsupported` there instead of choosing.
* Values are compared by structure.  The code shares `emptyXMLValue` by
  reference between results; when it is an Array, `push` in the promotion
  branch would mutate that shared Array, which the embedding describes as
  building a longer array for the key at hand only.
* Every `JXONNode` also owns the property `"#parent"`, a reference to the
  enclosing `JXONNode`.  No key the code forms equals `"#parent"`; the
  back reference is cyclic and is left out of `JVal.obj`.
-/

namespace JXON

/-! ## Strings -/

/-- Characters matched by `\s` in a JavaScript regular expression
(WhiteSpace and LineTerminator of ECMAScript). -/
def isJsSpace (c : Char) : Bool :=
  let n := c.toNat
  n == 0x09 || n == 0x0A || n == 0x0B || n == 0x0C || n == 0x0D || n == 0x20 ||
  n == 0xA0 || n == 0x1680 || (0x2000 ≤ n && n ≤ 0x200A) || n == 0x2028 ||
  n == 0x2029 || n == 0x202F || n == 0x205F || n == 0x3000 || n == 0xFEFF

/-- Removal of the match of `^\s+`. -/
def trimStart (cs : List Char) : List Char := cs.dropWhile isJsSpace

/-- Removal of the match of `\s+$`. -/
def trimEnd (cs : List Char) : List Char := (cs.reverse.dropWhile isJsSpace).reverse

/-- The expression `s.replace(/^\s+|\s+$/g, "")`. -/
def jsTrim (s : String) : String := ⟨trimEnd (trimStart s.data)⟩

/-- The test `/^\s*$/.test(s)`. -/
def isBlank (s : String) : Bool := s.data.all isJsSpace

/-- ASCII lower-casing of one character, the only case folding that the
`i` flag and `toLowerCase` perform on the letters of `true` and `false`. -/
def asciiLower (c : Char) : Char :=
  if 65 ≤ c.toNat ∧ c.toNat ≤ 90 then Char.ofNat (c.toNat + 32) else c

/-- The test `/^(true|false)$/i.test(s)` together with the value of
`s.toLowerCase() === "true"` when it matches. -/
def matchBool (s : String) : Option Bool :=
  let l := s.data.map asciiLower
  if l = "true".data then some true
  else if l = "false".data then some false
  else none

/-! ## Numbers -/

/-- A JavaScript Number. -/
inductive JNum where
  | nan
  | posInf
  | negInf
  | fin (m : Int) (k : Nat)
  deriving DecidableEq, Repr

/-- The least magnitude that rounds to `Infinity`: `2^1024 - 2^970`, written
out in decimal. -/
def overflowBound : Nat :=
  179769313486231580793728971405303415079934132710037826936173778980444968292764750946649017977587207096330286416692887910946555547851940402630657488671505820681908902000708383676273854845817711531764475730270069855571366959622842914819860834936475292719074168444365510704342711559699508093042880177904174497792

/-- Whether `mant * 10 ^ exp` rounds to an infinite double. -/
def overflows (mant : Nat) (exp : Int) : Bool :=
  match exp with
  | Int.ofNat e => decide (overflowBound ≤ mant * 10 ^ e)
  | Int.negSucc e => decide (overflowBound * 10 ^ (e + 1) ≤ mant)

/-- Cancels trailing zeros of `m` against the `k` decimal places. -/
def stripZeros : Nat → Nat → Nat × Nat
  | m, 0 => (m, 0)
  | m, k + 1 => if m % 10 = 0 then stripZeros (m / 10) k else (m, k + 1)

/-- Attaches a sign to a magnitude. -/
def signed (neg : Bool) (m : Nat) : Int := if neg then - (m : Int) else (m : Int)

/-- The Number denoted by the decimal `(-1)^neg * mant * 10 ^ exp`. -/
def JNum.ofDecimal (neg : Bool) (mant : Nat) (exp : Int) : JNum :=
  if overflows mant exp then (if neg then JNum.negInf else JNum.posInf)
  else
    match exp with
    | Int.ofNat e => JNum.fin (signed neg (mant * 10 ^ e)) 0
    | Int.negSucc e =>
      let p := stripZeros mant (e + 1)
      JNum.fin (signed neg p.1) p.2

/-- Whether the Number is finite. -/
def JNum.isFinite : JNum → Bool
  | JNum.fin _ _ => true
  | _ => false

/-- Decimal digit test. -/
def isDigit (c : Char) : Bool := decide (48 ≤ c.toNat ∧ c.toNat ≤ 57)

/-- Value of a digit in a base up to sixteen, when it is one. -/
def digitValue (base : Nat) (c : Char) : Option Nat :=
  let n := c.toNat
  let v : Option Nat :=
    if 48 ≤ n ∧ n ≤ 57 then some (n - 48)
    else if 97 ≤ n ∧ n ≤ 102 then some (n - 87)
    else if 65 ≤ n ∧ n ≤ 70 then some (n - 55)
    else none
  match v with
  | some d => if d < base then some d else none
  | none => none

/-- Value of a run of decimal digits. -/
def digitsToNat (ds : List Char) : Nat :=
  ds.foldl (fun a c => 10 * a + (c.toNat - 48)) 0

/-- Value of a run of digits in the given base; `none` when a character is
not a digit of that base. -/
def digitsInBase (base : Nat) : List Char → Nat → Option Nat
  | [], acc => some acc
  | c :: cs, acc =>
    match digitValue base c with
    | some d => digitsInBase base cs (base * acc + d)
    | none => none

/-- An optional sign: the flag for `-` and the remaining characters. -/
def scanSign : List Char → Bool × List Char
  | '-' :: cs => (true, cs)
  | '+' :: cs => (false, cs)
  | cs => (false, cs)

/-- An ExponentPart (`e` or `E`, optional sign, at least one digit) at the
head of the input: its value and the rest; `(0, cs)` when there is none. -/
def scanExponent (cs : List Char) : Int × List Char :=
  match cs with
  | c :: rest =>
    if c = 'e' ∨ c = 'E' then
      let sr := scanSign rest
      let ds := sr.2.takeWhile isDigit
      if ds = [] then (0, cs)
      else (if sr.1 then - (digitsToNat ds : Int) else (digitsToNat ds : Int),
            sr.2.dropWhile isDigit)
    else (0, cs)
  | [] => (0, cs)

/-- The longest prefix of the input that is a StrUnsignedDecimalLiteral other
than `Infinity`: mantissa, decimal exponent and the rest of the input. -/
def scanUnsigned (cs : List Char) : Option (Nat × Int × List Char) :=
  let ip := cs.takeWhile isDigit
  let r1 := cs.dropWhile isDigit
  let fp : List Char := match r1 with
    | '.' :: r => r.takeWhile isDigit
    | _ => []
  let r2 : List Char := match r1 with
    | '.' :: r => if ip = [] ∧ r.takeWhile isDigit = [] then r1 else r.dropWhile isDigit
    | _ => r1
  if ip = [] ∧ fp = [] then none
  else
    let er := scanExponent r2
    some (digitsToNat (ip ++ fp), er.1 - (fp.length : Int), er.2)

/-- The longest prefix of the input that is a StrDecimalLiteral: its value and
the rest of the input. -/
def scanStrDecimalLiteral (cs : List Char) : Option (JNum × List Char) :=
  let sr := scanSign cs
  if "Infinity".data <+: sr.2 then
    some (if sr.1 then JNum.negInf else JNum.posInf, sr.2.drop 8)
  else
    match scanUnsigned sr.2 with
    | some (m, e, rest) => some (JNum.ofDecimal sr.1 m e, rest)
    | none => none

/-- The function `parseFloat` on a string. -/
def parseFloat (s : String) : JNum :=
  match scanStrDecimalLiteral (trimStart s.data) with
  | some (n, _) => n
  | none => JNum.nan

/-- A NonDecimalIntegerLiteral (`0x`, `0o`, `0b` in either case, then at
least one digit of the base), which must be the whole input. -/
def nonDecimalLiteral : List Char → Option (Option Nat)
  | '0' :: p :: ds =>
    let base : Option Nat :=
      if p = 'x' ∨ p = 'X' then some 16
      else if p = 'o' ∨ p = 'O' then some 8
      else if p = 'b' ∨ p = 'B' then some 2
      else none
    match base with
    | some b => some (if ds = [] then none else digitsInBase b ds 0)
    | none => none
  | _ => none

/-- The conversion `Number(s)` of a string (StringToNumber). -/
def stringToNumber (s : String) : JNum :=
  let cs := trimEnd (trimStart s.data)
  if cs = [] then JNum.fin 0 0
  else
    match nonDecimalLiteral cs with
    | some (some n) => JNum.ofDecimal false n 0
    | some none => JNum.nan
    | none =>
      match scanStrDecimalLiteral cs with
      | some (n, []) => n
      | _ => JNum.nan

/-! ## Values -/

/-- A property key formed by the code: `""` (the initial value of `key`),
`"#text"`, `"@" + nodeName` for an attribute, `nodeName` for an element. -/
inductive Key where
  | blank
  | text
  | attr (name : String)
  | elem (name : String)
  deriving DecidableEq, Repr

/-- The string a key stands for. -/
def Key.toString : Key → String
  | Key.blank => ""
  | Key.text => "#text"
  | Key.attr n => "@" ++ n
  | Key.elem n => n

/-- A JavaScript value.  `date s` is the Date made by `new Date(s)` from a
string that `Date.parse` accepts; `func n` is the function found under the
inherited property `n`; `obj` lists the own properties of a `JXONNode` in
insertion order. -/
inductive JVal where
  | undefined
  | null
  | bool (b : Bool)
  | num (n : JNum)
  | date (source : String)
  | invalidDate
  | str (s : String)
  | func (name : String)
  | arr (items : List JVal)
  | obj (props : List (Key × JVal))

/-- Exceptions. -/
inductive JsError where
  | typeError
  | unsupported
  deriving DecidableEq, Repr

/-- The parts of the JavaScript runtime that the language standard leaves to
the implementation. -/
structure Runtime where
  /-- Whether `Date.parse(s)` is a finite time value. -/
  dateParse : String → Bool
  /-- Whether `Object.prototype` has a property of this name. -/
  objectPrototype : String → Bool

/-- The parser object: `this.emptyXMLValue`. -/
structure JXONParser where
  emptyXMLValue : JVal

/-- The constructor `JXONParser()`. -/
def JXONParser.new : JXONParser := ⟨JVal.null⟩

/-- The result of `String(n)` for a Number that is not finite. -/
def nonFiniteToString : JNum → String
  | JNum.posInf => "Infinity"
  | JNum.negInf => "-Infinity"
  | _ => "NaN"

/-- The inner function `convertValue(value)`.  The regular expressions and
`Date.parse` see `String(value)`, `isFinite` sees `Number(value)`,
`parseFloat` sees `String(value)`. -/
def convertValue (rt : Runtime) : JVal → Except JsError JVal
  | JVal.str s =>
    if isBlank s then Except.ok JVal.null
    else
      match matchBool s with
      | some b => Except.ok (JVal.bool b)
      | none =>
        if (stringToNumber s).isFinite then Except.ok (JVal.num (parseFloat s))
        else if rt.dateParse s then Except.ok (JVal.date s)
        else Except.ok (JVal.str s)
  -- `String(null)` is "null", `Number(null)` is 0
  | JVal.null => Except.ok (JVal.num (parseFloat "null"))
  -- `Number(undefined)` is NaN, `new Date(undefined)` is an invalid Date
  | JVal.undefined =>
    if rt.dateParse "undefined" then Except.ok JVal.invalidDate
    else Except.ok JVal.undefined
  -- the second test matches "true" / "false"; a Boolean has no `toLowerCase`
  | JVal.bool _ => Except.error JsError.typeError
  -- `parseFloat(String(n))` is `n` for a finite `n`
  | JVal.num n =>
    if n.isFinite then Except.ok (JVal.num n)
    else if rt.dateParse (nonFiniteToString n) then Except.ok JVal.invalidDate
    else Except.ok (JVal.num n)
  -- `Number(d)` is the finite time value, `String(d)` starts with a day name
  | JVal.date _ => Except.ok (JVal.num JNum.nan)
  | JVal.invalidDate => Except.ok JVal.invalidDate
  | JVal.func _ => Except.error JsError.unsupported
  | JVal.arr _ => Except.error JsError.unsupported
  | JVal.obj _ => Except.error JsError.unsupported

/-! ## The DOM tree -/

/-- An attribute node (`nodeType` 2). -/
structure Attr where
  nodeName : String
  nodeValue : String
  deriving DecidableEq, Repr

mutual
/-- A node of the parsed document: an element (`nodeType` 1), a text node (3),
a CDATA section (4), a processing instruction (7) or a comment (8). -/
inductive XmlNode where
  | element (nodeName : String) (attributes : List Attr) (childNodes : NodeList)
  | text (nodeValue : String)
  | cdata (nodeValue : String)
  | processingInstruction (target : String) (data : String)
  | comment (data : String)
/-- The `childNodes` of an element. -/
inductive NodeList where
  | nil
  | cons (head : XmlNode) (tail : NodeList)
end

/-- The property `nodeType`. -/
def XmlNode.nodeType : XmlNode → Nat
  | XmlNode.element _ _ _ => 1
  | XmlNode.text _ => 3
  | XmlNode.cdata _ => 4
  | XmlNode.processingInstruction _ _ => 7
  | XmlNode.comment _ => 8

/-- The nodes of a `NodeList`, by `item(0)`, `item(1)`, ... -/
def NodeList.toList : NodeList → List XmlNode
  | NodeList.nil => []
  | NodeList.cons n rest => n :: rest.toList

/-- A `NodeList` from a list of nodes. -/
def NodeList.ofList : List XmlNode → NodeList
  | [] => NodeList.nil
  | n :: rest => NodeList.cons n (NodeList.ofList rest)

/-- An entry of the array that `getAllChildrenElements` returns. -/
inductive Child where
  | attr (a : Attr)
  | node (n : XmlNode)

/-- The loop `for(idx = 0; idx < length; idx++) elements.push(children.item(idx))`
from `idx` on, with `fuel` iterations to go.  The loop stops before `length`,
so `item` is never asked for an index past the end. -/
def pushItems (children : List Child) : Nat → Nat → List Child → List Child
  | 0, _, elements => elements
  | fuel + 1, idx, elements =>
    match children.get? idx with
    | some c => pushItems children fuel (idx + 1) (elements ++ [c])
    | none => pushItems children fuel (idx + 1) elements

/-- The inner function `getAllChildrenElements(node)`: `elements` starts
empty, the first loop runs over `node.attributes`, the second over
`node.childNodes`.  A node that is not an element has no `attributes`, and
reading `length` of it raises. -/
def getAllChildrenElements : XmlNode → Except JsError (List Child)
  | XmlNode.element _ attributes childNodes =>
    let attrs := attributes.map Child.attr
    let elements := pushItems attrs attrs.length 0 []
    let nodes := childNodes.toList.map Child.node
    Except.ok (pushItems nodes nodes.length 0 elements)
  | _ => Except.error JsError.typeError

/-! ## Property access on a `JXONNode` -/

/-- The own property of this key, when there is one. -/
def ownProp : List (Key × JVal) → Key → Option JVal
  | [], _ => none
  | (k0, v) :: rest, k => if k0 = k then some v else ownProp rest k

/-- Whether the key is found on the prototype chain: `JXONNode.prototype`
carries `toString` and `constructor`, `Object.prototype` what the runtime
says.  Only an element name can be such a key. -/
def isInherited (rt : Runtime) : Key → Bool
  | Key.elem n => n == "toString" || n == "constructor" || rt.objectPrototype n
  | _ => false

/-- The expression `jxon[key]`. -/
def getProp (rt : Runtime) (props : List (Key × JVal)) (k : Key) : JVal :=
  match ownProp props k with
  | some v => v
  | none => if isInherited rt k then JVal.func k.toString else JVal.undefined

/-- The statement `jxon[key] = v`: an own property keeps its place, a new one
is added last. -/
def setProp : List (Key × JVal) → Key → JVal → List (Key × JVal)
  | [], k, v => [(k, v)]
  | (k0, v0) :: rest, k, v =>
    if k0 = k then (k, v) :: rest else (k0, v0) :: setProp rest k v

/-- The test `v === undefined`. -/
def JVal.isUndefined : JVal → Bool
  | JVal.undefined => true
  | _ => false

/-- The test `val.length != 0`.  It is evaluated only when `key` is `"#text"`,
where `val` is the string `text_val`; reading `length` of `null` or
`undefined` raises, a Boolean, Number or Date has no `length`. -/
def lengthNe0 : JVal → Except JsError Bool
  | JVal.str s => Except.ok (s.data.length != 0)
  | JVal.arr xs => Except.ok (xs.length != 0)
  | JVal.null => Except.error JsError.typeError
  | JVal.undefined => Except.error JsError.typeError
  | JVal.bool _ => Except.ok true
  | JVal.num _ => Except.ok true
  | JVal.date _ => Except.ok true
  | JVal.invalidDate => Except.ok true
  | JVal.func _ => Except.error JsError.unsupported
  | JVal.obj _ => Except.error JsError.unsupported

/-! ## parseNode -/

/-- What the loop body of `parseNode` reads of `children[idx]`: the node type,
the name and value, and for an element the outcome of
`this.parseNode(child, jxon)`. -/
inductive Entry where
  | element (nodeName : String) (parsed : Except JsError JVal)
  | attr (nodeName : String) (nodeValue : String)
  | text (nodeValue : String)
  | cdata (nodeValue : String)
  | other (nodeType : Nat)

/-- The value of `child.nodeType`. -/
def Entry.nodeType : Entry → Nat
  | Entry.element _ _ => 1
  | Entry.attr _ _ => 2
  | Entry.text _ => 3
  | Entry.cdata _ => 4
  | Entry.other t => t

/-- The variables of `parseNode` that live across iterations. -/
structure LoopState where
  key : Key
  val : JVal
  text_val : String
  text_only : Bool
  jxon : List (Key × JVal)

/-- The variables before the first iteration:
`key = "", val = null, text_val = "", text_only = true`, and a new `JXONNode`. -/
def LoopState.init : LoopState :=
  { key := Key.blank, val := JVal.null, text_val := "", text_only := true, jxon := [] }

/-- The `switch(child_type)` statement.  A node type without a case leaves
every variable as the previous iteration set it. -/
def switchChild (rt : Runtime) (st : LoopState) : Entry → Except JsError LoopState
  | Entry.element n parsed =>
    match parsed with
    | Except.ok v => Except.ok { st with key := Key.elem n, val := v }
    | Except.error e => Except.error e
  | Entry.attr n v =>
    match convertValue rt (JVal.str (jsTrim v)) with
    | Except.ok c => Except.ok { st with key := Key.attr n, val := c }
    | Except.error e => Except.error e
  | Entry.text v =>
    Except.ok { st with key := Key.text, text_val := st.text_val ++ jsTrim v,
                        val := JVal.str (st.text_val ++ jsTrim v) }
  | Entry.cdata v =>
    Except.ok { st with key := Key.text, text_val := st.text_val ++ v,
                        val := JVal.str (st.text_val ++ v) }
  | Entry.other _ => Except.ok st

/-- The statements after the shortcut: store `val` under `key`, or promote. -/
def assign (rt : Runtime) (st : LoopState) : Except JsError LoopState :=
  if st.key = Key.elem "__proto__" then Except.error JsError.unsupported
  else if (getProp rt st.jxon st.key).isUndefined || st.key == Key.text then
    match (if st.key ≠ Key.text then Except.ok true else lengthNe0 st.val) with
    | Except.error e => Except.error e
    | Except.ok b =>
      Except.ok { st with
        jxon := if b then setProp st.jxon st.key st.val else st.jxon,
        text_only := if st.key ≠ Key.text then false else st.text_only }
  else
    match getProp rt st.jxon st.key with
    | JVal.arr xs => Except.ok { st with jxon := setProp st.jxon st.key (JVal.arr (xs ++ [st.val])) }
    | old => Except.ok { st with jxon := setProp st.jxon st.key (JVal.arr [old, st.val]) }

/-- How one iteration ends: with the next state, or by `return`. -/
inductive Flow where
  | next (st : LoopState)
  | ret (v : JVal)

/-- One iteration of the loop over `children`. -/
def iteration (rt : Runtime) (length : Nat) (st : LoopState) (child : Entry) :
    Except JsError Flow :=
  match switchChild rt st child with
  | Except.error e => Except.error e
  | Except.ok st1 =>
    if length = 1 ∧ child.nodeType ≠ 1 then
      match convertValue rt st1.val with
      | Except.ok v => Except.ok (Flow.ret v)
      | Except.error e => Except.error e
    else
      match assign rt st1 with
      | Except.ok st2 => Except.ok (Flow.next st2)
      | Except.error e => Except.error e

/-- The loop `for(idx = 0; idx < length; idx++)` from the given state over
the entries still to come. -/
def loop (rt : Runtime) (length : Nat) : List Entry → LoopState → Except JsError Flow
  | [], st => Except.ok (Flow.next st)
  | child :: rest, st =>
    match iteration rt length st child with
    | Except.ok (Flow.next st1) => loop rt length rest st1
    | r => r

/-- The body of `parseNode` once `children` is known. -/
def parseEntries (p : JXONParser) (rt : Runtime) (children : List Entry) :
    Except JsError JVal :=
  if children.length = 0 then Except.ok p.emptyXMLValue
  else
    match loop rt children.length children LoopState.init with
    | Except.error e => Except.error e
    | Except.ok (Flow.ret v) => Except.ok v
    | Except.ok (Flow.next st) =>
      if st.text_only then convertValue rt (getProp rt st.jxon Key.text)
      else Except.ok (JVal.obj st.jxon)

/-- The entry of an attribute. -/
def attrEntry (a : Attr) : Entry := Entry.attr a.nodeName a.nodeValue

mutual
/-- The method `JXONParser.prototype.parseNode(xmlNode, jxonParent)`. -/
def parseNode (p : JXONParser) (rt : Runtime) : XmlNode → Except JsError JVal
  | XmlNode.element _ attributes childNodes =>
    parseEntries p rt (attributes.map attrEntry ++ childEntries p rt childNodes)
  | _ => Except.error JsError.typeError
/-- The entries of the child nodes, in document order. -/
def childEntries (p : JXONParser) (rt : Runtime) : NodeList → List Entry
  | NodeList.nil => []
  | NodeList.cons n rest =>
    (match n with
      | XmlNode.element name _ _ => Entry.element name (parseNode p rt n)
      | XmlNode.text v => Entry.text v
      | XmlNode.cdata v => Entry.cdata v
      | XmlNode.processingInstruction _ _ => Entry.other 7
      | XmlNode.comment _ => Entry.other 8) :: childEntries p rt rest
end

/-- The method `JXONParser.prototype.parseXML(xml)` from `xml_doc.documentElement`
on: `none` is a document without root element. -/
def parseXML (p : JXONParser) (rt : Runtime) : Option XmlNode → Except JsError JVal
  | none => Except.ok JVal.null
  | some root_xml =>
    match root_xml with
    | XmlNode.element nodeName _ _ =>
      match parseNode p rt root_xml with
      | Except.error e => Except.error e
      | Except.ok v =>
        if nodeName = "__proto__" then Except.error JsError.unsupported
        else Except.ok (JVal.obj [(Key.elem nodeName, v)])
    | _ => Except.error JsError.typeError

/-- The entry of a child node, with the outcome of the recursive call for an
element. -/
def entryOf (p : JXONParser) (rt : Runtime) (n : XmlNode) : Entry :=
  match n with
  | XmlNode.element name _ _ => Entry.element name (parseNode p rt n)
  | XmlNode.text v => Entry.text v
  | XmlNode.cdata v => Entry.cdata v
  | XmlNode.processingInstruction _ _ => Entry.other 7
  | XmlNode.comment _ => Entry.other 8

/-- A runtime for evaluating examples: `Object.prototype` with the properties
of the language standard and its annex, and a `Date.parse` that accepts none
of the strings of the examples. -/
def Runtime.standard : Runtime :=
  { dateParse := fun _ => false
    objectPrototype := fun n =>
      ["constructor", "toString", "toLocaleString", "valueOf", "hasOwnProperty",
       "isPrototypeOf", "propertyIsEnumerable", "__proto__", "__defineGetter__",
       "__defineSetter__", "__lookupGetter__", "__lookupSetter__"].contains n }

/-- The values of the JxonValue union of the specification, section 3: null,
a Boolean, a finite Number, a Date, a String, an object whose values are in
the union, or a sequence of such values. -/
inductive IsJxonValue : JVal → Prop where
  | null : IsJxonValue JVal.null
  | bool (b : Bool) : IsJxonValue (JVal.bool b)
  | num (m : Int) (k : Nat) : IsJxonValue (JVal.num (JNum.fin m k))
  | date (s : String) : IsJxonValue (JVal.date s)
  | str (s : String) : IsJxonValue (JVal.str s)
  | obj (props : List (Key × JVal)) :
      (∀ kv, kv ∈ props → IsJxonValue kv.2) → IsJxonValue (JVal.obj props)
  | arr (items : List JVal) :
      (∀ v, v ∈ items → IsJxonValue v) → IsJxonValue (JVal.arr items)

/-- The scalar that `convertValue` makes of a string; it raises nothing. -/
def convertString (rt : Runtime) (s : String) : JVal :=
  if isBlank s then JVal.null
  else
    match matchBool s with
    | some b => JVal.bool b
    | none =>
      if (stringToNumber s).isFinite then JVal.num (parseFloat s)
      else if rt.dateParse s then JVal.date s
      else JVal.str s

/-! ## The loop without the shortcut -/

/-- One iteration when `length` is not 1: the `switch`, then the assignment. -/
def step (rt : Runtime) (st : LoopState) (child : Entry) : Except JsError LoopState :=
  match switchChild rt st child with
  | Except.ok st1 => assign rt st1
  | Except.error e => Except.error e

/-- The iterations over the given entries when `length` is not 1. -/
def steps (rt : Runtime) : List Entry → LoopState → Except JsError LoopState
  | [], st => Except.ok st
  | child :: rest, st =>
    match step rt st child with
    | Except.ok st1 => steps rt rest st1
    | Except.error e => Except.error e

/-- What an entry adds to `text_val`: the trimmed value of a text node, the
value of a CDATA section as it is. -/
def entryText : Entry → String
  | Entry.text v => jsTrim v
  | Entry.cdata v => v
  | _ => ""

/-- The value of `text_val` after the given entries. -/
def accumulate : String → List Entry → String
  | acc, [] => acc
  | acc, e :: es => accumulate (acc ++ entryText e) es

/-- The text that the child nodes of an element accumulate, in document
order. -/
def accumulatedText (p : JXONParser) (rt : Runtime) (ks : NodeList) : String :=
  accumulate "" (ks.toList.map (entryOf p rt))

/-- An entry whose handling raises nothing and meets no inherited property:
for an element, the recursive call returned a value and the tag name is
neither `__proto__` nor found on the prototype chain. -/
def Entry.regular (rt : Runtime) : Entry → Prop
  | Entry.element n parsed =>
    (∃ v, parsed = Except.ok v) ∧ n ≠ "__proto__" ∧ isInherited rt (Key.elem n) = false
  | _ => True

/-- The invariant of the loop over regular entries. -/
structure Good (rt : Runtime) (st : LoopState) : Prop where
  notInherited : isInherited rt st.key = false
  notProto : st.key ≠ Key.elem "__proto__"
  textVal : st.key = Key.text → st.val = JVal.str st.text_val
  textProp : ownProp st.jxon Key.text =
    if st.text_val = "" then none else some (JVal.str st.text_val)
  textOnly : st.text_only = true → ∀ k, k ≠ Key.text → ownProp st.jxon k = none

/-- The post-condition of an iteration over a regular entry. -/
structure StepPost (rt : Runtime) (st st2 : LoopState) (e : Entry) : Prop where
  good : Good rt st2
  textVal : st2.text_val = st.text_val ++ entryText e
  mono : ∀ k, ownProp st.jxon k ≠ none → ownProp st2.jxon k ≠ none
  present : st2.key ≠ Key.text → ownProp st2.jxon st2.key ≠ none ∧ st2.text_only = false
  keyAttr : ∀ n v, e = Entry.attr n v → st2.key = Key.attr n
  keyElem : ∀ n r, e = Entry.element n r → st2.key = Key.elem n
  textOnly : st.text_only = false → st2.text_only = false

/-- The whole string, white space at both ends apart, is a numeric literal:
a NonDecimalIntegerLiteral, or a StrDecimalLiteral that the scanner reads to
the last character. -/
def isWholeNumericLiteral (s : String) : Prop :=
  (∃ n, nonDecimalLiteral (trimEnd (trimStart s.data)) = some (some n)) ∨
  (∃ n, scanStrDecimalLiteral (trimEnd (trimStart s.data)) = some (n, []))

/-- An entry whose handling raises nothing: for an element, the recursive
call returned a value and the tag name is not `__proto__`. -/
def Entry.passable : Entry → Prop
  | Entry.element n parsed => (∃ v, parsed = Except.ok v) ∧ n ≠ "__proto__"
  | _ => True

/-- The invariant of the loop over passable entries, inherited names
included. -/
structure Inv (rt : Runtime) (st : LoopState) : Prop where
  notProto : st.key ≠ Key.elem "__proto__"
  textVal : st.key = Key.text → st.val = JVal.str st.text_val
  textProp : ownProp st.jxon Key.text =
    if st.text_val = "" then none else some (JVal.str st.text_val)
  textOnly : st.text_only = true →
    ∀ k, k ≠ Key.text → isInherited rt k = false → ownProp st.jxon k = none

/-- The concatenation, in document order, of the values of the text nodes
among the given nodes, each trimmed of leading and trailing white space. -/
def trimmedTextConcat : List XmlNode → String
  | [] => ""
  | XmlNode.text v :: rest => jsTrim v ++ trimmedTextConcat rest
  | _ :: rest => trimmedTextConcat rest

/-! ## Basic facts -/

theorem overflowBound_eq : overflowBound = 2 ^ 1024 - 2 ^ 970 := by
  norm_num [overflowBound]

theorem childEntries_eq (p : JXONParser) (rt : Runtime) :
    ∀ ks : NodeList, childEntries p rt ks = ks.toList.map (entryOf p rt)
  | NodeList.nil => by simp [childEntries, NodeList.toList]
  | NodeList.cons n rest => by
    have ih := childEntries_eq p rt rest
    cases n <;> simp [childEntries, NodeList.toList, entryOf, ih]

theorem parseNode_element (p : JXONParser) (rt : Runtime) (name : String)
    (attrs : List Attr) (ks : NodeList) :
    parseNode p rt (XmlNode.element name attrs ks)
      = parseEntries p rt (attrs.map attrEntry ++ ks.toList.map (entryOf p rt)) := by
  rw [parseNode, childEntries_eq]

theorem convertValue_str (rt : Runtime) (s : String) :
    convertValue rt (JVal.str s) =
      if isBlank s then Except.ok JVal.null
      else
        match matchBool s with
        | some b => Except.ok (JVal.bool b)
        | none =>
          if (stringToNumber s).isFinite then Except.ok (JVal.num (parseFloat s))
          else if rt.dateParse s then Except.ok (JVal.date s)
          else Except.ok (JVal.str s) := by
  simp only [convertValue]

theorem convertValue_str_ok (rt : Runtime) (s : String) :
    convertValue rt (JVal.str s) = Except.ok (convertString rt s) := by
  rw [convertValue_str, convertString]
  split_ifs <;> try rfl
  all_goals (split <;> rfl)

theorem convertString_ne_obj (rt : Runtime) (s : String) (props : List (Key × JVal)) :
    convertString rt s ≠ JVal.obj props := by
  unfold convertString
  split_ifs <;> try simp
  all_goals (split <;> simp)

theorem convertString_ne_undefined (rt : Runtime) (s : String) :
    convertString rt s ≠ JVal.undefined := by
  unfold convertString
  split_ifs <;> try simp
  all_goals (split <;> simp)

/-! ## Elements without content, and elements with a single entry -/

/-- C3: an element with no attributes and no child nodes is transformed into
the configured `emptyXMLValue`, whatever that value is, and so a child
element `a` without content appears in the object of its parent under the key
`a` with that value (`a` being a name that nothing on the prototype chain
carries). -/
theorem C3_empty_element_gives_emptyXMLValue (p : JXONParser) (rt : Runtime)
    (name a : String) (h1 : a ≠ "toString") (h2 : a ≠ "constructor")
    (h3 : a ≠ "__proto__") (h4 : rt.objectPrototype a = false) :
    (∀ n : String, parseNode p rt (XmlNode.element n [] NodeList.nil)
        = Except.ok p.emptyXMLValue) ∧
    parseNode p rt
        (XmlNode.element name []
          (NodeList.cons (XmlNode.element a [] NodeList.nil) NodeList.nil))
      = Except.ok (JVal.obj [(Key.elem a, p.emptyXMLValue)]) := by
  have hempty : ∀ n : String, parseNode p rt (XmlNode.element n [] NodeList.nil)
      = Except.ok p.emptyXMLValue := by
    intro n
    simp [parseNode_element, NodeList.toList, parseEntries]
  refine ⟨hempty, ?_⟩
  rw [parseNode_element]
  simp [NodeList.toList, entryOf, hempty, parseEntries, loop, iteration, switchChild,
    Entry.nodeType, assign, LoopState.init, getProp, ownProp, isInherited, h1, h2, h3, h4,
    JVal.isUndefined, setProp]

theorem C3_empty_element_witness :
    (∀ n : String, parseNode JXONParser.new Runtime.standard (XmlNode.element n [] NodeList.nil)
        = Except.ok JXONParser.new.emptyXMLValue) ∧
    parseNode JXONParser.new Runtime.standard
        (XmlNode.element "root" []
          (NodeList.cons (XmlNode.element "a" [] NodeList.nil) NodeList.nil))
      = Except.ok (JVal.obj [(Key.elem "a", JXONParser.new.emptyXMLValue)]) :=
  C3_empty_element_gives_emptyXMLValue JXONParser.new Runtime.standard "root" "a"
    (by decide) (by decide) (by decide) (by decide)

/-- C4: an element with no attributes whose only child node is one text node
with value `s` is transformed into `convertValue(trim(s))`; the call raises
nothing and the result is never an object. -/
theorem C4_single_text_node (p : JXONParser) (rt : Runtime) (name s : String) :
    parseNode p rt (XmlNode.element name [] (NodeList.cons (XmlNode.text s) NodeList.nil))
        = convertValue rt (JVal.str (jsTrim s)) ∧
    convertValue rt (JVal.str (jsTrim s)) = Except.ok (convertString rt (jsTrim s)) ∧
    ∀ props : List (Key × JVal),
      parseNode p rt (XmlNode.element name [] (NodeList.cons (XmlNode.text s) NodeList.nil))
        ≠ Except.ok (JVal.obj props) := by
  have h : parseNode p rt
      (XmlNode.element name [] (NodeList.cons (XmlNode.text s) NodeList.nil))
        = convertValue rt (JVal.str (jsTrim s)) := by
    rw [parseNode_element, convertValue_str_ok]
    simp [NodeList.toList, entryOf, parseEntries, loop, iteration, switchChild,
      Entry.nodeType, LoopState.init, convertValue_str_ok]
  refine ⟨h, convertValue_str_ok rt _, ?_⟩
  intro props hp
  rw [h, convertValue_str_ok] at hp
  exact convertString_ne_obj rt _ props (by simpa using hp)

/-- C8 (the code departs from the claim): for an element whose only entry is
one attribute the code converts twice, `convertValue(convertValue(trim(v)))`;
for the value `true` the second conversion raises a TypeError where
`convertValue` of the raw string is the Boolean, and for an empty value the
result is NaN where `convertValue` of the raw string is null. -/
theorem C8_single_attribute_converted_twice (p : JXONParser) (rt : Runtime) :
    (∀ (name : String) (a : Attr),
      parseNode p rt (XmlNode.element name [a] NodeList.nil)
        = convertValue rt (convertString rt (jsTrim a.nodeValue))) ∧
    parseNode p rt (XmlNode.element "a" [⟨"x", "true"⟩] NodeList.nil)
        = Except.error JsError.typeError ∧
    convertValue rt (JVal.str "true") = Except.ok (JVal.bool true) ∧
    parseNode p rt (XmlNode.element "a" [⟨"x", ""⟩] NodeList.nil)
        = Except.ok (JVal.num JNum.nan) ∧
    convertValue rt (JVal.str "") = Except.ok JVal.null := by
  have h : ∀ (name : String) (a : Attr),
      parseNode p rt (XmlNode.element name [a] NodeList.nil)
        = convertValue rt (convertString rt (jsTrim a.nodeValue)) := by
    intro name a
    rw [parseNode_element]
    simp [NodeList.toList, attrEntry, parseEntries, loop, iteration, switchChild,
      Entry.nodeType, LoopState.init, convertValue_str_ok]
    generalize convertValue rt (convertString rt (jsTrim a.nodeValue)) = r
    cases r <;> rfl
  refine ⟨h, ?_, rfl, ?_, rfl⟩
  · rw [h]; rfl
  · rw [h]; rfl

/-- C10: for a document with root element `r`, `parseXML` returns the object
whose only key is the tag name of `r` and whose value there is the result of
`parseNode` on `r`; when `parseNode` raises, so does `parseXML`. -/
theorem C10_parseXML_wraps_root (p : JXONParser) (rt : Runtime) (name : String)
    (attrs : List Attr) (ks : NodeList) (hname : name ≠ "__proto__") :
    parseXML p rt (some (XmlNode.element name attrs ks))
      = (parseNode p rt (XmlNode.element name attrs ks)).map
          (fun v => JVal.obj [(Key.elem name, v)]) := by
  simp only [parseXML]
  cases parseNode p rt (XmlNode.element name attrs ks) with
  | error e => rfl
  | ok v => simp [hname, Except.map]

theorem C10_parseXML_wraps_root_witness :
    parseXML JXONParser.new Runtime.standard
        (some (XmlNode.element "root" [] (NodeList.cons (XmlNode.text "hello") NodeList.nil)))
      = Except.ok (JVal.obj [(Key.elem "root", JVal.str "hello")]) :=
  (C10_parseXML_wraps_root JXONParser.new Runtime.standard "root" []
    (NodeList.cons (XmlNode.text "hello") NodeList.nil) (by decide)).trans rfl

/-! ## Property lists, strings, and the invariant of the loop -/

theorem ownProp_setProp_self (ps : List (Key × JVal)) (k : Key) (v : JVal) :
    ownProp (setProp ps k v) k = some v := by
  induction ps with
  | nil => simp [setProp, ownProp]
  | cons kv rest ih =>
    obtain ⟨k0, v0⟩ := kv
    by_cases h : k0 = k
    · simp [setProp, ownProp, h]
    · simp [setProp, ownProp, h, ih]

theorem ownProp_setProp_ne (ps : List (Key × JVal)) (k k1 : Key) (v : JVal) (hk : k ≠ k1) :
    ownProp (setProp ps k v) k1 = ownProp ps k1 := by
  induction ps with
  | nil => simp [setProp, ownProp, hk]
  | cons kv rest ih =>
    obtain ⟨k0, v0⟩ := kv
    by_cases h : k0 = k
    · subst h
      simp [setProp, ownProp, hk]
    · by_cases h1 : k0 = k1
      · subst h1
        simp [setProp, ownProp, h]
      · simp [setProp, ownProp, h, h1, ih]

theorem ownProp_setProp_ne_none (ps : List (Key × JVal)) (k k1 : Key) (v : JVal)
    (h : ownProp ps k1 ≠ none) : ownProp (setProp ps k v) k1 ≠ none := by
  by_cases hk : k = k1
  · subst hk
    simp [ownProp_setProp_self]
  · rwa [ownProp_setProp_ne ps k k1 v hk]

theorem length_bne_zero (s : String) : (s.data.length != 0) = true ↔ s ≠ "" := by
  cases s with
  | mk d =>
    cases d with
    | nil => simp
    | cons c cs =>
      simp only [List.length_cons]
      constructor
      · intro _ h
        have h1 := congrArg String.data h
        simp at h1
      · intro _
        rfl

theorem append_eq_empty (a b : String) (h : a ++ b = "") : a = "" := by
  have h1 : (a ++ b).data = [] := by rw [h]
  rw [String.data_append] at h1
  have h2 : a.data = [] := (List.append_eq_nil.mp h1).1
  cases a
  simp_all

theorem loop_eq_steps (rt : Runtime) (length : Nat) (h : length ≠ 1) (es : List Entry) :
    ∀ st, loop rt length es st = (steps rt es st).map Flow.next := by
  induction es with
  | nil => intro st; rfl
  | cons e rest ih =>
    intro st
    simp only [loop, iteration, steps, step, h, false_and, if_false]
    cases switchChild rt st e with
    | error x => rfl
    | ok st1 =>
      simp only []
      cases assign rt st1 with
      | error x => rfl
      | ok st2 => simp only [ih]

theorem assign_text (rt : Runtime) (tv : String) (tonly : Bool)
    (jx : List (Key × JVal)) :
    assign rt { key := Key.text, val := JVal.str tv, text_val := tv, text_only := tonly, jxon := jx }
      = Except.ok { key := Key.text, val := JVal.str tv, text_val := tv, text_only := tonly,
                    jxon := if tv = "" then jx else setProp jx Key.text (JVal.str tv) } := by
  by_cases h : tv = ""
  · subst h
    simp [assign, lengthNe0]
  · have h1 : (tv.data.length != 0) = true := (length_bne_zero tv).mpr h
    simp only [bne_iff_ne, ne_eq] at h1
    have h2 : ¬ tv.length = 0 := h1
    simp [assign, lengthNe0, h, h1, h2]

theorem assign_other (rt : Runtime) (key : Key) (val : JVal) (tv : String) (tonly : Bool)
    (jx : List (Key × JVal)) (hk : key ≠ Key.text) (hp : key ≠ Key.elem "__proto__") :
    (getProp rt jx key = JVal.undefined ∧
      assign rt { key := key, val := val, text_val := tv, text_only := tonly, jxon := jx }
        = Except.ok { key := key, val := val, text_val := tv, text_only := false,
                      jxon := setProp jx key val }) ∨
    (getProp rt jx key ≠ JVal.undefined ∧ ∃ x,
      assign rt { key := key, val := val, text_val := tv, text_only := tonly, jxon := jx }
        = Except.ok { key := key, val := val, text_val := tv, text_only := tonly,
                      jxon := setProp jx key x }) := by
  by_cases hu : getProp rt jx key = JVal.undefined
  · left
    refine ⟨hu, ?_⟩
    simp [assign, hp, hk, hu, JVal.isUndefined]
  · right
    refine ⟨hu, ?_⟩
    have hu1 : (getProp rt jx key).isUndefined = false := by
      cases hg : getProp rt jx key <;> simp_all [JVal.isUndefined]
    simp only [assign, hp, hk, hu1, if_false, Bool.false_or, beq_iff_eq]
    split <;> exact ⟨_, rfl⟩

theorem getProp_undefined_of_none (rt : Runtime) (jx : List (Key × JVal)) (k : Key)
    (hi : isInherited rt k = false) (h : ownProp jx k = none) :
    getProp rt jx k = JVal.undefined := by
  simp [getProp, h, hi]


theorem assign_other_good (rt : Runtime) (key : Key) (val : JVal) (tv : String)
    (tonly : Bool) (jx : List (Key × JVal)) (hk : key ≠ Key.text)
    (hp : key ≠ Key.elem "__proto__") (hi : isInherited rt key = false)
    (htp : ownProp jx Key.text = if tv = "" then none else some (JVal.str tv))
    (hto : tonly = true → ∀ k, k ≠ Key.text → ownProp jx k = none) :
    ∃ st2, assign rt { key := key, val := val, text_val := tv, text_only := tonly, jxon := jx }
        = Except.ok st2 ∧ Good rt st2 ∧ st2.key = key ∧ st2.text_val = tv ∧
      (∀ k, ownProp jx k ≠ none → ownProp st2.jxon k ≠ none) ∧
      ownProp st2.jxon key ≠ none ∧ st2.text_only = false := by
  rcases assign_other rt key val tv tonly jx hk hp with ⟨_, h⟩ | ⟨hu, x, h⟩
  · refine ⟨_, h, ⟨hi, hp, ?_, ?_, ?_⟩, rfl, rfl, ?_, ?_, rfl⟩
    · intro h1; exact absurd h1 hk
    · show ownProp (setProp jx key val) Key.text = _
      rw [ownProp_setProp_ne jx key Key.text val hk]; exact htp
    · intro h1; cases h1
    · intro k hk1; exact ownProp_setProp_ne_none jx key k val hk1
    · show ownProp (setProp jx key val) key ≠ none
      simp [ownProp_setProp_self]
  · have hf : tonly = false := by
      cases tonly with
      | false => rfl
      | true => exact absurd (getProp_undefined_of_none rt jx key hi (hto rfl key hk)) hu
    subst hf
    refine ⟨_, h, ⟨hi, hp, ?_, ?_, ?_⟩, rfl, rfl, ?_, ?_, rfl⟩
    · intro h1; exact absurd h1 hk
    · show ownProp (setProp jx key x) Key.text = _
      rw [ownProp_setProp_ne jx key Key.text x hk]; exact htp
    · intro h1; cases h1
    · intro k hk1; exact ownProp_setProp_ne_none jx key k x hk1
    · show ownProp (setProp jx key x) key ≠ none
      simp [ownProp_setProp_self]

theorem assign_text_good (rt : Runtime) (tv : String) (tonly : Bool)
    (jx : List (Key × JVal)) (hnone : tv = "" → ownProp jx Key.text = none)
    (hto : tonly = true → ∀ k, k ≠ Key.text → ownProp jx k = none) :
    ∃ st2, assign rt { key := Key.text, val := JVal.str tv, text_val := tv,
                       text_only := tonly, jxon := jx }
        = Except.ok st2 ∧ Good rt st2 ∧ st2.key = Key.text ∧ st2.text_val = tv ∧
      (∀ k, ownProp jx k ≠ none → ownProp st2.jxon k ≠ none) ∧
      st2.text_only = tonly := by
  refine ⟨_, assign_text rt tv tonly jx, ⟨rfl, ?_, ?_, ?_, ?_⟩, rfl, rfl, ?_, rfl⟩
  · intro h; cases h
  · intro _; rfl
  · show ownProp (if tv = "" then jx else setProp jx Key.text (JVal.str tv)) Key.text = _
    by_cases h : tv = ""
    · simp [h, hnone h]
    · simp [h, ownProp_setProp_self]
  · intro h k hk
    show ownProp (if tv = "" then jx else setProp jx Key.text (JVal.str tv)) k = none
    by_cases h1 : tv = ""
    · simp [h1, hto h k hk]
    · simp only [h1, if_false]
      rw [ownProp_setProp_ne jx Key.text k _ (Ne.symm hk)]
      exact hto h k hk
  · intro k hk
    show ownProp (if tv = "" then jx else setProp jx Key.text (JVal.str tv)) k ≠ none
    by_cases h1 : tv = ""
    · simpa [h1] using hk
    · simp only [h1, if_false]
      exact ownProp_setProp_ne_none jx Key.text k _ hk

theorem step_good (rt : Runtime) (st : LoopState) (e : Entry) (hg : Good rt st)
    (he : e.regular rt) : ∃ st2, step rt st e = Except.ok st2 ∧ StepPost rt st st2 e := by
  obtain ⟨key, val, tv, tonly, jx⟩ := st
  obtain ⟨hi, hp, hv, htp, hto⟩ := hg
  simp only at hi hp hv htp hto
  have happ : ∀ x : String, tv ++ x = "" → ownProp jx Key.text = none := by
    intro x hx
    rw [htp, if_pos (append_eq_empty tv x hx)]
  cases e with
  | element n parsed =>
    obtain ⟨⟨v, rfl⟩, hn, hin⟩ := he
    obtain ⟨st2, h, g, hk, ht, hm, hpr, hf⟩ :=
      assign_other_good rt (Key.elem n) v tv tonly jx (by simp) (by simpa using hn) hin htp hto
    refine ⟨st2, by simpa [step, switchChild] using h, g, ?_, hm, ?_, ?_, ?_, fun _ => hf⟩
    · simp [ht, entryText]
    · intro _; rw [hk]; exact ⟨hpr, hf⟩
    · intro n1 v1 h1; cases h1
    · intro n1 r1 h1; cases h1; exact hk
  | attr n v =>
    obtain ⟨st2, h, g, hk, ht, hm, hpr, hf⟩ :=
      assign_other_good rt (Key.attr n) (convertString rt (jsTrim v)) tv tonly jx
        (by simp) (by simp) rfl htp hto
    refine ⟨st2, by simpa [step, switchChild, convertValue_str_ok] using h, g, ?_, hm, ?_, ?_, ?_,
      fun _ => hf⟩
    · simp [ht, entryText]
    · intro _; rw [hk]; exact ⟨hpr, hf⟩
    · intro n1 v1 h1; cases h1; exact hk
    · intro n1 r1 h1; cases h1
  | text v =>
    obtain ⟨st2, h, g, hk, ht, hm, hf⟩ :=
      assign_text_good rt (tv ++ jsTrim v) tonly jx (happ _) hto
    refine ⟨st2, by simpa [step, switchChild] using h, g, ?_, hm, ?_, ?_, ?_, ?_⟩
    · simp [ht, entryText]
    · intro h1; exact absurd hk h1
    · intro n1 v1 h1; cases h1
    · intro n1 r1 h1; cases h1
    · intro h1; rw [hf]; exact h1
  | cdata v =>
    obtain ⟨st2, h, g, hk, ht, hm, hf⟩ :=
      assign_text_good rt (tv ++ v) tonly jx (happ _) hto
    refine ⟨st2, by simpa [step, switchChild] using h, g, ?_, hm, ?_, ?_, ?_, ?_⟩
    · simp [ht, entryText]
    · intro h1; exact absurd hk h1
    · intro n1 v1 h1; cases h1
    · intro n1 r1 h1; cases h1
    · intro h1; rw [hf]; exact h1
  | other t =>
    by_cases hkt : key = Key.text
    · subst hkt
      have hval : val = JVal.str tv := hv rfl
      subst hval
      obtain ⟨st2, h, g, hk, ht, hm, hf⟩ :=
        assign_text_good rt tv tonly jx (fun h1 => by rw [htp, if_pos h1]) hto
      refine ⟨st2, by simpa [step, switchChild] using h, g, ?_, hm, ?_, ?_, ?_, ?_⟩
      · simp [ht, entryText]
      · intro h1; exact absurd hk h1
      · intro n1 v1 h1; cases h1
      · intro n1 r1 h1; cases h1
      · intro h1; rw [hf]; exact h1
    · obtain ⟨st2, h, g, hk, ht, hm, hpr, hf⟩ :=
        assign_other_good rt key val tv tonly jx hkt hp hi htp hto
      refine ⟨st2, by simpa [step, switchChild] using h, g, ?_, hm, ?_, ?_, ?_, fun _ => hf⟩
      · simp [ht, entryText]
      · intro _; rw [hk]; exact ⟨hpr, hf⟩
      · intro n1 v1 h1; cases h1
      · intro n1 r1 h1; cases h1

theorem steps_good (rt : Runtime) (es : List Entry) :
    ∀ st, Good rt st → (∀ e, e ∈ es → e.regular rt) →
      ∃ st2, steps rt es st = Except.ok st2 ∧ Good rt st2 ∧
        st2.text_val = accumulate st.text_val es ∧
        (∀ k, ownProp st.jxon k ≠ none → ownProp st2.jxon k ≠ none) ∧
        (st.text_only = false → st2.text_only = false) ∧
        (∀ n v, Entry.attr n v ∈ es →
          ownProp st2.jxon (Key.attr n) ≠ none ∧ st2.text_only = false) ∧
        (∀ n r, Entry.element n r ∈ es →
          ownProp st2.jxon (Key.elem n) ≠ none ∧ st2.text_only = false) := by
  induction es with
  | nil =>
    intro st hg _
    exact ⟨st, rfl, hg, rfl, fun _ h => h, fun h => h, by simp, by simp⟩
  | cons e rest ih =>
    intro st hg hreg
    obtain ⟨st1, h1, post⟩ := step_good rt st e hg (hreg e (List.mem_cons_self _ _))
    obtain ⟨st2, h2, g2, ht, hm, hto, ha, hel⟩ :=
      ih st1 post.good (fun x hx => hreg x (List.mem_cons_of_mem _ hx))
    refine ⟨st2, by simp [steps, h1, h2], g2, ?_, ?_, ?_, ?_, ?_⟩
    · rw [ht, post.textVal]; rfl
    · intro k hk; exact hm k (post.mono k hk)
    · intro h; exact hto (post.textOnly h)
    · intro n v hmem
      rcases List.mem_cons.mp hmem with heq | hin
      · have hk := post.keyAttr n v heq.symm
        have hp := post.present (by rw [hk]; simp)
        rw [hk] at hp
        exact ⟨hm _ hp.1, hto hp.2⟩
      · exact ha n v hin
    · intro n r hmem
      rcases List.mem_cons.mp hmem with heq | hin
      · have hk := post.keyElem n r heq.symm
        have hp := post.present (by rw [hk]; simp)
        rw [hk] at hp
        exact ⟨hm _ hp.1, hto hp.2⟩
      · exact hel n r hin

theorem good_init (rt : Runtime) : Good rt LoopState.init :=
  ⟨rfl, by simp [LoopState.init], by simp [LoopState.init], rfl, fun _ _ _ => rfl⟩

theorem parseEntries_of_steps (p : JXONParser) (rt : Runtime) (es : List Entry)
    (hlen : 2 ≤ es.length) (st : LoopState) (h : steps rt es LoopState.init = Except.ok st) :
    parseEntries p rt es =
      if st.text_only then convertValue rt (getProp rt st.jxon Key.text)
      else Except.ok (JVal.obj st.jxon) := by
  have h0 : es.length ≠ 0 := by omega
  have h1 : es.length ≠ 1 := by omega
  simp [parseEntries, h0, loop_eq_steps rt es.length h1, h, Except.map]

theorem accumulate_append (acc : String) (xs ys : List Entry) :
    accumulate acc (xs ++ ys) = accumulate (accumulate acc xs) ys := by
  induction xs generalizing acc with
  | nil => rfl
  | cons x rest ih => simp [accumulate, ih]

theorem accumulate_silent (acc : String) (xs : List Entry)
    (h : ∀ e, e ∈ xs → entryText e = "") : accumulate acc xs = acc := by
  induction xs generalizing acc with
  | nil => rfl
  | cons x rest ih =>
    have hx : entryText x = "" := h x (List.mem_cons_self _ _)
    simp [accumulate, hx, ih acc (fun e he => h e (List.mem_cons_of_mem _ he))]

theorem entryOf_regular_of_not_element (p : JXONParser) (rt : Runtime) (n : XmlNode)
    (h : n.nodeType ≠ 1) : (entryOf p rt n).regular rt := by
  cases n <;> simp_all [entryOf, Entry.regular, XmlNode.nodeType]

theorem entryText_attrEntry (a : Attr) : entryText (attrEntry a) = "" := rfl

/-! ## Attributes with text, and CDATA next to child elements -/

/-- The attribute is kept: `<root a="1">text</root>` gives an object with the
keys `@a` and `#text`, not the scalar of the text. -/
theorem C2_attribute_with_text_counterexample :
    parseNode JXONParser.new Runtime.standard
        (XmlNode.element "root" [⟨"a", "1"⟩] (NodeList.cons (XmlNode.text "text") NodeList.nil))
      = Except.ok (JVal.obj [(Key.attr "a", JVal.num (JNum.fin 1 0)),
                             (Key.text, JVal.str "text")]) ∧
    parseNode JXONParser.new Runtime.standard
        (XmlNode.element "root" [⟨"a", "1"⟩] (NodeList.cons (XmlNode.text "text") NodeList.nil))
      ≠ convertValue Runtime.standard (JVal.str "text") := by
  have h : parseNode JXONParser.new Runtime.standard
        (XmlNode.element "root" [⟨"a", "1"⟩] (NodeList.cons (XmlNode.text "text") NodeList.nil))
      = Except.ok (JVal.obj [(Key.attr "a", JVal.num (JNum.fin 1 0)),
                             (Key.text, JVal.str "text")]) := rfl
  refine ⟨h, ?_⟩
  rw [h, convertValue_str_ok]
  intro hc
  injection hc with hc
  exact convertString_ne_obj _ _ _ hc.symm

/-- C2 (amended): an element with at least one attribute, at least one text
node and no child elements is transformed into an object, not into the
coerced scalar of its text: the object has the key `'@'+name` of every
attribute, and it has the key `#text`, holding the accumulated text as a
string, exactly when that text is not empty. -/
theorem C2_attributes_with_text_give_object (p : JXONParser) (rt : Runtime)
    (name : String) (attrs : List Attr) (ks : NodeList) (hattr : attrs ≠ [])
    (htext : ∃ s, XmlNode.text s ∈ ks.toList)
    (hno : ∀ n, n ∈ ks.toList → n.nodeType ≠ 1) :
    ∃ props, parseNode p rt (XmlNode.element name attrs ks) = Except.ok (JVal.obj props) ∧
      (∀ a, a ∈ attrs → ownProp props (Key.attr a.nodeName) ≠ none) ∧
      ownProp props Key.text =
        if accumulatedText p rt ks = "" then none
        else some (JVal.str (accumulatedText p rt ks)) := by
  have hreg : ∀ e, e ∈ attrs.map attrEntry ++ ks.toList.map (entryOf p rt) →
      e.regular rt := by
    intro e he
    rcases List.mem_append.mp he with h | h
    · obtain ⟨a, _, rfl⟩ := List.mem_map.mp h
      trivial
    · obtain ⟨n, hn, rfl⟩ := List.mem_map.mp h
      exact entryOf_regular_of_not_element p rt n (hno n hn)
  have hlen : 2 ≤ (attrs.map attrEntry ++ ks.toList.map (entryOf p rt)).length := by
    obtain ⟨s, hs⟩ := htext
    have h1 : 0 < attrs.length := List.length_pos.mpr hattr
    have h2 : 0 < ks.toList.length := List.length_pos_of_mem hs
    simp only [List.length_append, List.length_map]
    omega
  obtain ⟨st, hst, g, htv, _, _, ha, _⟩ := steps_good rt _ LoopState.init (good_init rt) hreg
  have hacc : st.text_val = accumulatedText p rt ks := by
    rw [htv, accumulate_append, accumulate_silent _ (attrs.map attrEntry)]
    · rfl
    · intro e he
      obtain ⟨a, _, rfl⟩ := List.mem_map.mp he
      rfl
  have hmem : ∀ a, a ∈ attrs → Entry.attr a.nodeName a.nodeValue ∈
      attrs.map attrEntry ++ ks.toList.map (entryOf p rt) := by
    intro a h
    exact List.mem_append_left _ (List.mem_map.mpr ⟨a, h, rfl⟩)
  have hfalse : st.text_only = false := by
    obtain ⟨a, h⟩ := List.exists_mem_of_ne_nil attrs hattr
    exact (ha _ _ (hmem a h)).2
  refine ⟨st.jxon, ?_, fun a h => (ha _ _ (hmem a h)).1, ?_⟩
  · rw [parseNode_element, parseEntries_of_steps p rt _ hlen st hst]
    simp [hfalse]
  · rw [← hacc]
    exact g.textProp

theorem C2_attributes_with_text_witness :
    ∃ props, parseNode JXONParser.new Runtime.standard
        (XmlNode.element "root" [⟨"a", "1"⟩] (NodeList.cons (XmlNode.text "text") NodeList.nil))
        = Except.ok (JVal.obj props) ∧
      (∀ a, a ∈ [(⟨"a", "1"⟩ : Attr)] → ownProp props (Key.attr a.nodeName) ≠ none) ∧
      ownProp props Key.text =
        if accumulatedText JXONParser.new Runtime.standard
            (NodeList.cons (XmlNode.text "text") NodeList.nil) = "" then none
        else some (JVal.str (accumulatedText JXONParser.new Runtime.standard
            (NodeList.cons (XmlNode.text "text") NodeList.nil))) :=
  C2_attributes_with_text_give_object JXONParser.new Runtime.standard "root" [⟨"a", "1"⟩]
    (NodeList.cons (XmlNode.text "text") NodeList.nil) (by simp)
    ⟨"text", by simp [NodeList.toList]⟩
    (by intro n hn; simp [NodeList.toList] at hn; subst hn; simp [XmlNode.nodeType])

/-- The empty CDATA section next to a child element: no `#text` key is
stored. -/
theorem C6_empty_cdata_counterexample :
    parseNode JXONParser.new Runtime.standard
        (XmlNode.element "root" []
          (NodeList.cons (XmlNode.element "b" [] NodeList.nil)
            (NodeList.cons (XmlNode.cdata "") NodeList.nil)))
      = Except.ok (JVal.obj [(Key.elem "b", JVal.null)]) ∧
    ownProp [(Key.elem "b", JVal.null)] Key.text = none :=
  ⟨rfl, rfl⟩

/-- C6 (amended): CDATA content is never trimmed, and it is stored unless it
is empty: for an element with at least one child element, no text nodes and
exactly one CDATA section whose content `c` is not the empty string (it may
be white space only), the object returned by `parseNode` has the key `#text`
with the value `c` exactly.  The child elements are taken to be transformed
without exception and to carry names that are not found on the prototype
chain. -/
theorem C6_cdata_kept_verbatim (p : JXONParser) (rt : Runtime) (name : String)
    (attrs : List Attr) (ks : NodeList) (pre post : List XmlNode) (c : String)
    (hks : ks.toList = pre ++ XmlNode.cdata c :: post)
    (hc : c ≠ "")
    (hone : ∀ n, n ∈ pre ++ post → n.nodeType ≠ 3 ∧ n.nodeType ≠ 4)
    (helem : ∃ n, n ∈ pre ++ post ∧ n.nodeType = 1)
    (hreg : ∀ n, n ∈ pre ++ post → (entryOf p rt n).regular rt) :
    ∃ props, parseNode p rt (XmlNode.element name attrs ks) = Except.ok (JVal.obj props) ∧
      ownProp props Key.text = some (JVal.str c) := by
  have hsilent : ∀ l : List XmlNode, (∀ n, n ∈ l → n ∈ pre ++ post) →
      ∀ e, e ∈ l.map (entryOf p rt) → entryText e = "" := by
    intro l hl e he
    obtain ⟨n, hn, rfl⟩ := List.mem_map.mp he
    have h := hone n (hl n hn)
    cases n <;> simp_all [entryOf, entryText, XmlNode.nodeType]
  have hregAll : ∀ e, e ∈ attrs.map attrEntry ++ ks.toList.map (entryOf p rt) →
      e.regular rt := by
    intro e he
    rcases List.mem_append.mp he with h | h
    · obtain ⟨a, _, rfl⟩ := List.mem_map.mp h
      trivial
    · obtain ⟨n, hn, rfl⟩ := List.mem_map.mp h
      rw [hks] at hn
      rcases List.mem_append.mp hn with h1 | h1
      · exact hreg n (List.mem_append_left _ h1)
      · rcases List.mem_cons.mp h1 with h2 | h2
        · subst h2; trivial
        · exact hreg n (List.mem_append_right _ h2)
  obtain ⟨m, hm, hm1⟩ := helem
  have hmks : m ∈ ks.toList := by
    rw [hks]
    rcases List.mem_append.mp hm with h | h
    · exact List.mem_append_left _ h
    · exact List.mem_append_right _ (List.mem_cons_of_mem _ h)
  have hlen : 2 ≤ (attrs.map attrEntry ++ ks.toList.map (entryOf p rt)).length := by
    have h2 : 2 ≤ ks.toList.length := by
      rw [hks]
      have h3 : 0 < (pre ++ post).length := List.length_pos_of_mem hm
      simp only [List.length_append, List.length_cons] at h3 ⊢
      omega
    simp only [List.length_append, List.length_map]
    omega
  obtain ⟨st, hst, g, htv, _, _, _, hel⟩ :=
    steps_good rt _ LoopState.init (good_init rt) hregAll
  have hacc : st.text_val = c := by
    rw [htv, accumulate_append, accumulate_silent _ (attrs.map attrEntry), hks, List.map_append,
      List.map_cons, accumulate_append,
      accumulate_silent _ (pre.map (entryOf p rt))
        (hsilent pre (fun n h => List.mem_append_left _ h))]
    · show accumulate (LoopState.init.text_val ++ entryText (entryOf p rt (XmlNode.cdata c)))
        (post.map (entryOf p rt)) = c
      rw [accumulate_silent _ (post.map (entryOf p rt))
        (hsilent post (fun n h => List.mem_append_right _ h))]
      simp [LoopState.init, entryOf, entryText]
    · intro e he
      obtain ⟨a, _, rfl⟩ := List.mem_map.mp he
      rfl
  have hfalse : st.text_only = false := by
    cases m with
    | element nm as cs =>
      exact (hel nm (parseNode p rt (XmlNode.element nm as cs))
        (List.mem_append_right _ (List.mem_map.mpr ⟨_, hmks, rfl⟩))).2
    | text v => simp [XmlNode.nodeType] at hm1
    | cdata v => simp [XmlNode.nodeType] at hm1
    | processingInstruction t d => simp [XmlNode.nodeType] at hm1
    | comment d => simp [XmlNode.nodeType] at hm1
  refine ⟨st.jxon, ?_, ?_⟩
  · rw [parseNode_element, parseEntries_of_steps p rt _ hlen st hst]
    simp [hfalse]
  · have h := g.textProp
    rw [hacc, if_neg hc] at h
    exact h

theorem C6_cdata_kept_verbatim_witness :
    ∃ props, parseNode JXONParser.new Runtime.standard
        (XmlNode.element "root" []
          (NodeList.cons (XmlNode.element "b" [] NodeList.nil)
            (NodeList.cons (XmlNode.cdata "  ") NodeList.nil)))
        = Except.ok (JVal.obj props) ∧
      ownProp props Key.text = some (JVal.str "  ") :=
  C6_cdata_kept_verbatim JXONParser.new Runtime.standard "root" []
    (NodeList.cons (XmlNode.element "b" [] NodeList.nil)
      (NodeList.cons (XmlNode.cdata "  ") NodeList.nil))
    [XmlNode.element "b" [] NodeList.nil] [] "  " rfl (by decide)
    (by intro n hn; simp at hn; subst hn; simp [XmlNode.nodeType])
    ⟨XmlNode.element "b" [] NodeList.nil, by simp, rfl⟩
    (by
      intro n hn
      simp at hn
      subst hn
      exact ⟨⟨JVal.null, rfl⟩, by decide, rfl⟩)

/-! ## Nodes of other kinds among the children, and values outside the union -/

/-- C1 (the code departs from the claim): with a comment between two `item`
siblings that are transformed into 1 and 2, the key `item` of the parent holds
the sequence 1, 1, 2 of length three, not the sequence 1, 2 of the two
siblings. -/
theorem C1_comment_between_siblings :
    parseNode JXONParser.new Runtime.standard
        (XmlNode.element "root" []
          (NodeList.cons
            (XmlNode.element "item" [] (NodeList.cons (XmlNode.text "1") NodeList.nil))
            (NodeList.cons (XmlNode.comment "c")
              (NodeList.cons
                (XmlNode.element "item" [] (NodeList.cons (XmlNode.text "2") NodeList.nil))
                NodeList.nil))))
      = Except.ok (JVal.obj [(Key.elem "item",
          JVal.arr [JVal.num (JNum.fin 1 0), JVal.num (JNum.fin 1 0), JVal.num (JNum.fin 2 0)])]) ∧
    parseNode JXONParser.new Runtime.standard
        (XmlNode.element "item" [] (NodeList.cons (XmlNode.text "1") NodeList.nil))
      = Except.ok (JVal.num (JNum.fin 1 0)) ∧
    parseNode JXONParser.new Runtime.standard
        (XmlNode.element "item" [] (NodeList.cons (XmlNode.text "2") NodeList.nil))
      = Except.ok (JVal.num (JNum.fin 2 0)) :=
  ⟨rfl, rfl, rfl⟩

/-- C5 (the code departs from the claim): with a comment after the attribute
`a="1"` of an element that has a child element, the key `@a` holds the
sequence 1, 1 and not `convertValue(trim("1"))`, which is 1. -/
theorem C5_comment_after_attribute :
    parseNode JXONParser.new Runtime.standard
        (XmlNode.element "root" [⟨"a", "1"⟩]
          (NodeList.cons (XmlNode.comment "c")
            (NodeList.cons
              (XmlNode.element "b" [] (NodeList.cons (XmlNode.text "x") NodeList.nil))
              NodeList.nil)))
      = Except.ok (JVal.obj [(Key.attr "a", JVal.arr [JVal.num (JNum.fin 1 0), JVal.num (JNum.fin 1 0)]),
                             (Key.elem "b", JVal.str "x")]) ∧
    convertValue Runtime.standard (JVal.str (jsTrim "1")) = Except.ok (JVal.num (JNum.fin 1 0)) :=
  ⟨rfl, rfl⟩

/-- C7 (the code departs from the claim): a comment inserted between the two
child elements of `root` changes the result of `parseNode`; the key `a` holds
1 before the insertion and the sequence 1, 1 after it. -/
theorem C7_inserted_comment_changes_result :
    parseNode JXONParser.new Runtime.standard
        (XmlNode.element "root" []
          (NodeList.cons
            (XmlNode.element "a" [] (NodeList.cons (XmlNode.text "1") NodeList.nil))
            (NodeList.cons
              (XmlNode.element "b" [] (NodeList.cons (XmlNode.text "2") NodeList.nil))
              NodeList.nil)))
      = Except.ok (JVal.obj [(Key.elem "a", JVal.num (JNum.fin 1 0)),
                             (Key.elem "b", JVal.num (JNum.fin 2 0))]) ∧
    parseNode JXONParser.new Runtime.standard
        (XmlNode.element "root" []
          (NodeList.cons
            (XmlNode.element "a" [] (NodeList.cons (XmlNode.text "1") NodeList.nil))
            (NodeList.cons (XmlNode.comment "c")
              (NodeList.cons
                (XmlNode.element "b" [] (NodeList.cons (XmlNode.text "2") NodeList.nil))
                NodeList.nil))))
      = Except.ok (JVal.obj [(Key.elem "a", JVal.arr [JVal.num (JNum.fin 1 0), JVal.num (JNum.fin 1 0)]),
                             (Key.elem "b", JVal.num (JNum.fin 2 0))]) ∧
    JVal.obj [(Key.elem "a", JVal.num (JNum.fin 1 0)), (Key.elem "b", JVal.num (JNum.fin 2 0))]
      ≠ JVal.obj [(Key.elem "a", JVal.arr [JVal.num (JNum.fin 1 0), JVal.num (JNum.fin 1 0)]),
                  (Key.elem "b", JVal.num (JNum.fin 2 0))] :=
  ⟨rfl, rfl, by simp⟩

/-- C9 (the code departs from the claim): with the default parser, an element
whose only entry is an attribute with empty value is transformed into NaN,
and an element whose children are a blank text node and an empty CDATA
section is transformed into `undefined`; neither is in the JxonValue union. -/
theorem C9_results_outside_union (rt : Runtime) :
    parseNode JXONParser.new rt (XmlNode.element "a" [⟨"x", ""⟩] NodeList.nil)
      = Except.ok (JVal.num JNum.nan) ∧
    ¬ IsJxonValue (JVal.num JNum.nan) ∧
    parseNode JXONParser.new Runtime.standard
        (XmlNode.element "a" []
          (NodeList.cons (XmlNode.text " ") (NodeList.cons (XmlNode.cdata "") NodeList.nil)))
      = Except.ok JVal.undefined ∧
    ¬ IsJxonValue JVal.undefined := by
  refine ⟨rfl, ?_, rfl, ?_⟩
  · intro h; cases h
  · intro h; cases h

/-! ## The document entry point, and the array of children -/

/-- The document without root element: `parseXML` returns `null`, it raises
nothing. -/
theorem C11_no_root_counterexample :
    parseXML JXONParser.new Runtime.standard none = Except.ok JVal.null ∧
    ¬ ∃ e, parseXML JXONParser.new Runtime.standard none = Except.error e :=
  ⟨rfl, by rintro ⟨e, h⟩; cases h⟩

/-- C11 (amended): when the parsed document supplies no root element,
`parseXML` returns `null` to the caller, for every parser and runtime; it
raises no exception. -/
theorem C11_no_root_returns_null (p : JXONParser) (rt : Runtime) :
    parseXML p rt none = Except.ok JVal.null := rfl

theorem pushItems_eq (children : List Child) :
    ∀ (fuel idx : Nat) (elements : List Child), idx + fuel = children.length →
      pushItems children fuel idx elements = elements ++ children.drop idx := by
  intro fuel
  induction fuel with
  | zero =>
    intro idx elements h
    have h1 : children.drop idx = [] := List.drop_eq_nil_of_le (by omega)
    simp [pushItems, h1]
  | succ fuel ih =>
    intro idx elements h
    have hlt : idx < children.length := by omega
    have hget : children.get? idx = some (children.get ⟨idx, hlt⟩) := List.get?_eq_get hlt
    have hdrop : children.drop idx = children.get ⟨idx, hlt⟩ :: children.drop (idx + 1) := by
      rw [List.drop_eq_getElem_cons hlt]
      rfl
    rw [pushItems, hget]
    simp only []
    rw [ih (idx + 1) _ (by omega), hdrop]
    simp

/-- C20: for an element, `getAllChildrenElements` returns all attributes in
their declared order followed by all child nodes in document order; the
length of the list is the number of attributes plus the number of child
nodes, and the list is empty exactly when the element has neither. -/
theorem C20_getAllChildrenElements_order (name : String) (attrs : List Attr)
    (ks : NodeList) :
    getAllChildrenElements (XmlNode.element name attrs ks)
      = Except.ok (attrs.map Child.attr ++ ks.toList.map Child.node) ∧
    (attrs.map Child.attr ++ ks.toList.map Child.node).length
      = attrs.length + ks.toList.length ∧
    (attrs.map Child.attr ++ ks.toList.map Child.node = [] ↔
      attrs = [] ∧ ks.toList = []) := by
  refine ⟨?_, by simp, by simp⟩
  simp only [getAllChildrenElements]
  rw [pushItems_eq _ _ 0 [] (by simp), pushItems_eq _ _ 0 _ (by simp)]
  simp

/-! ## convertValue on strings -/

theorem isJsSpace_false_of_upper (c : Char) (h : 65 ≤ c.toNat ∧ c.toNat ≤ 90) :
    isJsSpace c = false := by
  obtain ⟨h1, h2⟩ := h
  simp only [isJsSpace, Bool.or_eq_false_iff, Bool.and_eq_false_iff, beq_eq_false_iff_ne,
    decide_eq_false_iff_not, ne_eq]
  omega

theorem isJsSpace_false_of_asciiLower (c x : Char) (h : asciiLower c = x)
    (hx : isJsSpace x = false) : isJsSpace c = false := by
  unfold asciiLower at h
  split_ifs at h with hc
  · exact isJsSpace_false_of_upper c hc
  · rw [h]; exact hx

theorem matchBool_not_blank (s : String) (b : Bool) (h : matchBool s = some b) :
    isBlank s = false := by
  unfold matchBool at h
  simp only at h
  have key : ∀ (x : Char) (rest : List Char), isJsSpace x = false →
      s.data.map asciiLower = x :: rest → isBlank s = false := by
    intro x rest hx hm
    cases hd : s.data with
    | nil => rw [hd] at hm; cases hm
    | cons c cs =>
      rw [hd] at hm
      simp only [List.map_cons, List.cons.injEq] at hm
      have hc := isJsSpace_false_of_asciiLower c x hm.1 hx
      simp [isBlank, hd, hc]
  split_ifs at h with h1 h2
  · exact key 't' _ (by decide) h1
  · exact key 'f' _ (by decide) h2

theorem convertValue_of_matchBool (rt : Runtime) (s : String) (b : Bool)
    (h : matchBool s = some b) : convertValue rt (JVal.str s) = Except.ok (JVal.bool b) := by
  rw [convertValue_str]
  simp [matchBool_not_blank s b h, h]

theorem convertValue_blank (rt : Runtime) (s : String) (h : isBlank s = true) :
    convertValue rt (JVal.str s) = Except.ok JVal.null := by
  rw [convertValue_str]
  simp [h]

theorem convertValue_bool_iff (rt : Runtime) (s : String) (b : Bool) :
    convertValue rt (JVal.str s) = Except.ok (JVal.bool b) ↔ matchBool s = some b := by
  constructor
  · intro h
    rw [convertValue_str] at h
    by_cases h1 : isBlank s = true
    · simp [h1] at h
    · cases hm : matchBool s with
      | some b1 => simpa [h1, hm] using h
      | none =>
        by_cases h2 : (stringToNumber s).isFinite = true
        · simp [h1, hm, h2] at h
        · by_cases h3 : rt.dateParse s = true
          · simp [h1, hm, h2, h3] at h
          · simp [h1, hm, h2, h3] at h
  · exact convertValue_of_matchBool rt s b

theorem convertValue_num_imp (rt : Runtime) (s : String) (n : JNum)
    (h : convertValue rt (JVal.str s) = Except.ok (JVal.num n)) :
    isBlank s = false ∧ (stringToNumber s).isFinite = true ∧ n = parseFloat s := by
  rw [convertValue_str] at h
  by_cases h1 : isBlank s = true
  · simp [h1] at h
  · cases hm : matchBool s with
    | some b1 => simp [h1, hm] at h
    | none =>
      by_cases h2 : (stringToNumber s).isFinite = true
      · simp [h1, hm, h2] at h
        exact ⟨by simpa using h1, h2, h.symm⟩
      · by_cases h3 : rt.dateParse s = true
        · simp [h1, hm, h2, h3] at h
        · simp [h1, hm, h2, h3] at h

theorem trimStart_of_blank (s : String) (h : isBlank s = true) : trimStart s.data = [] := by
  rw [trimStart, List.dropWhile_eq_nil_iff]
  simpa [isBlank] using h

theorem blank_of_trim_nil (s : String) (h : trimEnd (trimStart s.data) = []) :
    isBlank s = true := by
  have h1 : (trimStart s.data).reverse.dropWhile isJsSpace = [] := by
    simpa [trimEnd] using h
  rw [List.dropWhile_eq_nil_iff] at h1
  have h2 : trimStart s.data = [] := by
    by_contra hne
    have hhead := List.head_dropWhile_not isJsSpace s.data hne
    have hmem : (List.dropWhile isJsSpace s.data).head hne ∈ (trimStart s.data).reverse := by
      simp [trimStart, List.head_mem]
    rw [h1 _ hmem] at hhead
    cases hhead
  rw [trimStart, List.dropWhile_eq_nil_iff] at h2
  simpa [isBlank] using h2

/-- C12: for every string that is empty or consists of white space only,
`convertValue` returns null; the rule comes before the numeric rule, which
would accept the string (`Number(raw)` is the finite number 0). -/
theorem C12_blank_string_gives_null (rt : Runtime) (raw : String)
    (h : isBlank raw = true) :
    convertValue rt (JVal.str raw) = Except.ok JVal.null ∧
    stringToNumber raw = JNum.fin 0 0 ∧ (stringToNumber raw).isFinite = true := by
  have h0 : stringToNumber raw = JNum.fin 0 0 := by
    simp [stringToNumber, trimStart_of_blank raw h, trimEnd]
  refine ⟨convertValue_blank rt raw h, h0, ?_⟩
  rw [h0]; rfl

theorem C12_blank_string_witness :
    convertValue Runtime.standard (JVal.str " \t\n") = Except.ok JVal.null ∧
    stringToNumber " \t\n" = JNum.fin 0 0 ∧ (stringToNumber " \t\n").isFinite = true :=
  C12_blank_string_gives_null Runtime.standard " \t\n" (by decide)

/-- C13: `convertValue` returns the Boolean true exactly for the strings that
equal `true` when the ASCII letters are lower-cased, the Boolean false exactly
for those that equal `false`, and a Boolean for no other string: `TRUE` and
`False` qualify, ` true` with a leading blank does not. -/
theorem C13_boolean_exactly_for_true_false (rt : Runtime) (raw : String) :
    (convertValue rt (JVal.str raw) = Except.ok (JVal.bool true) ↔
      raw.data.map asciiLower = "true".data) ∧
    (convertValue rt (JVal.str raw) = Except.ok (JVal.bool false) ↔
      raw.data.map asciiLower = "false".data) ∧
    convertValue rt (JVal.str "TRUE") = Except.ok (JVal.bool true) ∧
    convertValue rt (JVal.str "False") = Except.ok (JVal.bool false) ∧
    ∀ b, convertValue rt (JVal.str " true") ≠ Except.ok (JVal.bool b) := by
  refine ⟨?_, ?_, ?_, ?_, ?_⟩
  · rw [convertValue_bool_iff]
    unfold matchBool
    by_cases h1 : raw.data.map asciiLower = "true".data
    · simp [h1]
    · by_cases h2 : raw.data.map asciiLower = "false".data
      · simp [h1, h2]
      · simp [h1, h2]
  · rw [convertValue_bool_iff]
    unfold matchBool
    by_cases h1 : raw.data.map asciiLower = "true".data
    · simp only [h1, if_true]
      decide
    · by_cases h2 : raw.data.map asciiLower = "false".data
      · simp [h1, h2]
      · simp [h1, h2]
  · exact convertValue_of_matchBool rt "TRUE" true (by decide)
  · exact convertValue_of_matchBool rt "False" false (by decide)
  · intro b hb
    have h := (convertValue_bool_iff rt " true" b).mp hb
    revert h
    cases b <;> decide

/-- C14: `convertValue` returns a Number only if the whole string is a numeric
literal, and then the Number is `parseFloat` of the string; `12px`, of which
`parseFloat` reads the prefix 12, is not converted to a Number. -/
theorem C14_number_only_for_whole_literal (rt : Runtime) (raw : String) (n : JNum)
    (h : convertValue rt (JVal.str raw) = Except.ok (JVal.num n)) :
    (isWholeNumericLiteral raw ∧ (stringToNumber raw).isFinite = true ∧ n = parseFloat raw) ∧
    parseFloat "12px" = JNum.fin 12 0 ∧
    ∀ m, convertValue rt (JVal.str "12px") ≠ Except.ok (JVal.num m) := by
  obtain ⟨hb, hf, hn⟩ := convertValue_num_imp rt raw n h
  refine ⟨⟨?_, hf, hn⟩, by decide, ?_⟩
  · have hne : trimEnd (trimStart raw.data) ≠ [] := by
      intro hnil
      rw [blank_of_trim_nil raw hnil] at hb
      cases hb
    unfold stringToNumber at hf
    simp only [hne, if_false] at hf
    unfold isWholeNumericLiteral
    cases hnd : nonDecimalLiteral (trimEnd (trimStart raw.data)) with
    | some r =>
      cases r with
      | some k => exact Or.inl ⟨k, rfl⟩
      | none => rw [hnd] at hf; cases hf
    | none =>
      rw [hnd] at hf
      right
      cases hsc : scanStrDecimalLiteral (trimEnd (trimStart raw.data)) with
      | none => rw [hsc] at hf; cases hf
      | some r =>
        obtain ⟨k, rest⟩ := r
        cases rest with
        | nil => exact ⟨k, rfl⟩
        | cons c cs => rw [hsc] at hf; cases hf
  · intro m hm
    have h1 := (convertValue_num_imp rt "12px" m hm).2.1
    revert h1
    decide

theorem C14_number_only_for_whole_literal_witness :
    (isWholeNumericLiteral "12" ∧ (stringToNumber "12").isFinite = true ∧
      JNum.fin 12 0 = parseFloat "12") ∧
    parseFloat "12px" = JNum.fin 12 0 ∧
    ∀ m, convertValue Runtime.standard (JVal.str "12px") ≠ Except.ok (JVal.num m) :=
  C14_number_only_for_whole_literal Runtime.standard "12" (JNum.fin 12 0) rfl

/-- C18: an element with no attributes whose only child node is one CDATA
section with content `c` is transformed into `convertValue(c)` of the
untrimmed content; the call raises nothing and the result is never an
object. -/
theorem C18_single_cdata_section (p : JXONParser) (rt : Runtime) (name c : String) :
    parseNode p rt (XmlNode.element name [] (NodeList.cons (XmlNode.cdata c) NodeList.nil))
        = convertValue rt (JVal.str c) ∧
    convertValue rt (JVal.str c) = Except.ok (convertString rt c) ∧
    (∀ props : List (Key × JVal),
      parseNode p rt (XmlNode.element name [] (NodeList.cons (XmlNode.cdata c) NodeList.nil))
        ≠ Except.ok (JVal.obj props)) ∧
    parseNode p Runtime.standard
        (XmlNode.element "root" [] (NodeList.cons (XmlNode.cdata "  raw  ") NodeList.nil))
      = Except.ok (JVal.str "  raw  ") := by
  have h : ∀ (r : Runtime) (nm d : String), parseNode p r
      (XmlNode.element nm [] (NodeList.cons (XmlNode.cdata d) NodeList.nil))
        = convertValue r (JVal.str d) := by
    intro r nm d
    rw [parseNode_element, convertValue_str_ok]
    simp [NodeList.toList, entryOf, parseEntries, loop, iteration, switchChild,
      Entry.nodeType, LoopState.init, convertValue_str_ok]
  refine ⟨h rt name c, convertValue_str_ok rt _, ?_, ?_⟩
  · intro props hp
    rw [h, convertValue_str_ok] at hp
    exact convertString_ne_obj rt _ props (by simpa using hp)
  · rw [h]; rfl

/-! ## Inherited names, text-only elements, and the value of a numeric literal -/

/-- C15 (the code departs from the claim): the one child element named
`toString` is transformed into the string x, but the key `toString` of the
parent holds the sequence of the inherited function and x, because
`jxon[key] === undefined` finds `JXONNode.prototype.toString`; and when such
an element is the only child, `text_only` is never cleared and the parent is
transformed into `undefined`. -/
theorem C15_inherited_name_is_promoted :
    parseNode JXONParser.new Runtime.standard
        (XmlNode.element "root" []
          (NodeList.cons
            (XmlNode.element "a" [] (NodeList.cons (XmlNode.text "1") NodeList.nil))
            (NodeList.cons
              (XmlNode.element "toString" [] (NodeList.cons (XmlNode.text "x") NodeList.nil))
              NodeList.nil)))
      = Except.ok (JVal.obj [(Key.elem "a", JVal.num (JNum.fin 1 0)),
          (Key.elem "toString", JVal.arr [JVal.func "toString", JVal.str "x"])]) ∧
    parseNode JXONParser.new Runtime.standard
        (XmlNode.element "toString" [] (NodeList.cons (XmlNode.text "x") NodeList.nil))
      = Except.ok (JVal.str "x") ∧
    parseNode JXONParser.new Runtime.standard
        (XmlNode.element "root" []
          (NodeList.cons
            (XmlNode.element "constructor" [] (NodeList.cons (XmlNode.text "x") NodeList.nil))
            NodeList.nil))
      = Except.ok JVal.undefined :=
  ⟨rfl, rfl, rfl⟩

theorem step_text_only (rt : Runtime) (st st2 : LoopState) (e : Entry)
    (he : e.nodeType = 3 ∨ e.nodeType = 4) (hn : ∀ t, e ≠ Entry.other t)
    (h : step rt st e = Except.ok st2) : st2.text_only = st.text_only := by
  obtain ⟨key, val, tv, tonly, jx⟩ := st
  cases e with
  | element n r => simp [Entry.nodeType] at he
  | attr n v => simp [Entry.nodeType] at he
  | text v =>
    simp only [step, switchChild, assign_text, Except.ok.injEq] at h
    rw [← h]
  | cdata v =>
    simp only [step, switchChild, assign_text, Except.ok.injEq] at h
    rw [← h]
  | other t => exact absurd rfl (hn t)

theorem steps_text_only (rt : Runtime) (es : List Entry)
    (hes : ∀ e, e ∈ es → (e.nodeType = 3 ∨ e.nodeType = 4) ∧ ∀ t, e ≠ Entry.other t) :
    ∀ st st2, steps rt es st = Except.ok st2 → st2.text_only = st.text_only := by
  induction es with
  | nil =>
    intro st st2 h
    simp only [steps, Except.ok.injEq] at h
    rw [h]
  | cons e rest ih =>
    intro st st2 h
    simp only [steps] at h
    cases h1 : step rt st e with
    | error x => rw [h1] at h; cases h
    | ok st1 =>
      rw [h1] at h
      have ht := step_text_only rt st st1 e (hes e (List.mem_cons_self _ _)).1
        (hes e (List.mem_cons_self _ _)).2 h1
      rw [ih (fun x hx => hes x (List.mem_cons_of_mem _ hx)) st1 st2 h, ht]

/-- An element without attributes whose child nodes, two or more, are all
text nodes and CDATA sections: the result is `convertValue` of the accumulated
text when that text is not empty, and `convertValue(undefined)` when it is. -/
theorem parseNode_text_children (p : JXONParser) (rt : Runtime) (name : String)
    (ks : NodeList) (hks : ∀ n, n ∈ ks.toList → n.nodeType = 3 ∨ n.nodeType = 4)
    (hlen : 2 ≤ ks.toList.length) :
    parseNode p rt (XmlNode.element name [] ks) =
      if accumulatedText p rt ks = "" then convertValue rt JVal.undefined
      else convertValue rt (JVal.str (accumulatedText p rt ks)) := by
  have hkind : ∀ e, e ∈ ks.toList.map (entryOf p rt) →
      (e.nodeType = 3 ∨ e.nodeType = 4) ∧ ∀ t, e ≠ Entry.other t := by
    intro e he
    obtain ⟨n, hn, rfl⟩ := List.mem_map.mp he
    have h := hks n hn
    cases n <;> simp_all [entryOf, Entry.nodeType, XmlNode.nodeType]
  have hreg : ∀ e, e ∈ ks.toList.map (entryOf p rt) → e.regular rt := by
    intro e he
    obtain ⟨n, hn, rfl⟩ := List.mem_map.mp he
    refine entryOf_regular_of_not_element p rt n ?_
    rcases hks n hn with h | h <;> omega
  obtain ⟨st, hst, g, htv, _, _, _, _⟩ :=
    steps_good rt _ LoopState.init (good_init rt) hreg
  have hto : st.text_only = true := steps_text_only rt _ hkind _ _ hst
  have hacc : st.text_val = accumulatedText p rt ks := htv
  rw [parseNode_element, List.map_nil, List.nil_append,
    parseEntries_of_steps p rt _ (by simpa using hlen) st hst]
  have hprop := g.textProp
  rw [hacc] at hprop
  by_cases he : accumulatedText p rt ks = ""
  · simp [hto, he, getProp, hprop, isInherited]
  · simp [hto, he, getProp, hprop]

/-- C17 (the code departs from the claim): for an element whose children are
a white-space text node and an empty CDATA section the accumulated text is
empty, no `#text` is stored, and the code returns `convertValue(undefined)`,
which is `undefined`, where `convertValue` of the accumulated text is null. -/
theorem C17_empty_text_gives_undefined :
    parseNode JXONParser.new Runtime.standard
        (XmlNode.element "a" []
          (NodeList.cons (XmlNode.text "  ") (NodeList.cons (XmlNode.cdata "") NodeList.nil)))
      = Except.ok JVal.undefined ∧
    accumulatedText JXONParser.new Runtime.standard
        (NodeList.cons (XmlNode.text "  ") (NodeList.cons (XmlNode.cdata "") NodeList.nil)) = "" ∧
    convertValue Runtime.standard (JVal.str "") = Except.ok JVal.null :=
  ⟨rfl, by decide, rfl⟩

/-- C19 (the code departs from the claim): for the integer literals `0x10`,
`0b11` and `0o17` the numeric test sees 16, 3 and 15, which are finite, and
`convertValue` returns `parseFloat` of the string, which reads the leading
`0` only and is 0. -/
theorem C19_prefixed_literal_gives_zero (rt : Runtime) :
    stringToNumber "0x10" = JNum.fin 16 0 ∧
    convertValue rt (JVal.str "0x10") = Except.ok (JVal.num (JNum.fin 0 0)) ∧
    stringToNumber "0b11" = JNum.fin 3 0 ∧
    convertValue rt (JVal.str "0b11") = Except.ok (JVal.num (JNum.fin 0 0)) ∧
    stringToNumber " 0o17 " = JNum.fin 15 0 ∧
    convertValue rt (JVal.str " 0o17 ") = Except.ok (JVal.num (JNum.fin 0 0)) :=
  ⟨by decide, rfl, by decide, rfl, by decide, rfl⟩

/-! ## The `#text` key next to child elements -/

theorem inv_init (rt : Runtime) : Inv rt LoopState.init :=
  ⟨by simp [LoopState.init], by simp [LoopState.init], rfl, fun _ _ _ _ => rfl⟩

theorem assign_other_inv (rt : Runtime) (key : Key) (val : JVal) (tv : String)
    (tonly : Bool) (jx : List (Key × JVal)) (hk : key ≠ Key.text)
    (hp : key ≠ Key.elem "__proto__")
    (htp : ownProp jx Key.text = if tv = "" then none else some (JVal.str tv))
    (hto : tonly = true →
      ∀ k, k ≠ Key.text → isInherited rt k = false → ownProp jx k = none) :
    ∃ st2, assign rt { key := key, val := val, text_val := tv, text_only := tonly, jxon := jx }
        = Except.ok st2 ∧ Inv rt st2 ∧ st2.key = key ∧ st2.text_val = tv ∧
      (tonly = false → st2.text_only = false) ∧
      (isInherited rt key = false → st2.text_only = false) := by
  rcases assign_other rt key val tv tonly jx hk hp with ⟨_, h⟩ | ⟨hu, x, h⟩
  · refine ⟨_, h, ⟨hp, ?_, ?_, ?_⟩, rfl, rfl, fun _ => rfl, fun _ => rfl⟩
    · intro h1; exact absurd h1 hk
    · show ownProp (setProp jx key val) Key.text = _
      rw [ownProp_setProp_ne jx key Key.text val hk]; exact htp
    · intro h1; cases h1
  · have hkey : isInherited rt key = false → tonly = false := by
      intro hi
      cases tonly with
      | false => rfl
      | true => exact absurd (getProp_undefined_of_none rt jx key hi (hto rfl key hk hi)) hu
    refine ⟨_, h, ⟨hp, ?_, ?_, ?_⟩, rfl, rfl, fun h1 => h1, hkey⟩
    · intro h1; exact absurd h1 hk
    · show ownProp (setProp jx key x) Key.text = _
      rw [ownProp_setProp_ne jx key Key.text x hk]; exact htp
    · intro h1 k hk1 hi
      show ownProp (setProp jx key x) k = none
      have hne : key ≠ k := by
        intro heq
        subst heq
        have := hkey hi
        rw [this] at h1
        cases h1
      rw [ownProp_setProp_ne jx key k x hne]
      exact hto h1 k hk1 hi

theorem assign_text_inv (rt : Runtime) (tv : String) (tonly : Bool)
    (jx : List (Key × JVal)) (hnone : tv = "" → ownProp jx Key.text = none)
    (hto : tonly = true →
      ∀ k, k ≠ Key.text → isInherited rt k = false → ownProp jx k = none) :
    ∃ st2, assign rt { key := Key.text, val := JVal.str tv, text_val := tv,
                       text_only := tonly, jxon := jx }
        = Except.ok st2 ∧ Inv rt st2 ∧ st2.key = Key.text ∧ st2.text_val = tv ∧
      st2.text_only = tonly := by
  refine ⟨_, assign_text rt tv tonly jx, ⟨?_, ?_, ?_, ?_⟩, rfl, rfl, rfl⟩
  · intro h; cases h
  · intro _; rfl
  · show ownProp (if tv = "" then jx else setProp jx Key.text (JVal.str tv)) Key.text = _
    by_cases h : tv = ""
    · simp [h, hnone h]
    · simp [h, ownProp_setProp_self]
  · intro h k hk hi
    show ownProp (if tv = "" then jx else setProp jx Key.text (JVal.str tv)) k = none
    by_cases h1 : tv = ""
    · simp [h1, hto h k hk hi]
    · simp only [h1, if_false]
      rw [ownProp_setProp_ne jx Key.text k _ (Ne.symm hk)]
      exact hto h k hk hi

theorem step_inv (rt : Runtime) (st : LoopState) (e : Entry) (hg : Inv rt st)
    (he : e.passable) :
    ∃ st2, step rt st e = Except.ok st2 ∧ Inv rt st2 ∧
      st2.text_val = st.text_val ++ entryText e ∧
      (st.text_only = false → st2.text_only = false) ∧
      (∀ n r, e = Entry.element n r → isInherited rt (Key.elem n) = false →
        st2.text_only = false) ∧
      (∀ n v, e = Entry.attr n v → st2.text_only = false) := by
  obtain ⟨key, val, tv, tonly, jx⟩ := st
  obtain ⟨hp, hv, htp, hto⟩ := hg
  simp only at hp hv htp hto
  have happ : ∀ x : String, tv ++ x = "" → ownProp jx Key.text = none := by
    intro x hx
    rw [htp, if_pos (append_eq_empty tv x hx)]
  cases e with
  | element n parsed =>
    obtain ⟨⟨v, rfl⟩, hn⟩ := he
    obtain ⟨st2, h, g, _, ht, hf, hi⟩ :=
      assign_other_inv rt (Key.elem n) v tv tonly jx (by simp) (by simpa using hn) htp hto
    refine ⟨st2, by simpa [step, switchChild] using h, g, by simp [ht, entryText], hf, ?_, ?_⟩
    · intro n1 r1 h1 h2; cases h1; exact hi h2
    · intro n1 v1 h1; cases h1
  | attr n v =>
    obtain ⟨st2, h, g, _, ht, hf, hi⟩ :=
      assign_other_inv rt (Key.attr n) (convertString rt (jsTrim v)) tv tonly jx
        (by simp) (by simp) htp hto
    refine ⟨st2, by simpa [step, switchChild, convertValue_str_ok] using h, g,
      by simp [ht, entryText], hf, ?_, ?_⟩
    · intro n1 r1 h1; cases h1
    · intro n1 v1 _; exact hi rfl
  | text v =>
    obtain ⟨st2, h, g, _, ht, hf⟩ := assign_text_inv rt (tv ++ jsTrim v) tonly jx (happ _) hto
    refine ⟨st2, by simpa [step, switchChild] using h, g, by simp [ht, entryText], ?_, ?_, ?_⟩
    · intro h1; rw [hf]; exact h1
    · intro n1 r1 h1; cases h1
    · intro n1 v1 h1; cases h1
  | cdata v =>
    obtain ⟨st2, h, g, _, ht, hf⟩ := assign_text_inv rt (tv ++ v) tonly jx (happ _) hto
    refine ⟨st2, by simpa [step, switchChild] using h, g, by simp [ht, entryText], ?_, ?_, ?_⟩
    · intro h1; rw [hf]; exact h1
    · intro n1 r1 h1; cases h1
    · intro n1 v1 h1; cases h1
  | other t =>
    by_cases hkt : key = Key.text
    · subst hkt
      have hval : val = JVal.str tv := hv rfl
      subst hval
      obtain ⟨st2, h, g, _, ht, hf⟩ :=
        assign_text_inv rt tv tonly jx (fun h1 => by rw [htp, if_pos h1]) hto
      refine ⟨st2, by simpa [step, switchChild] using h, g, by simp [ht, entryText], ?_, ?_, ?_⟩
      · intro h1; rw [hf]; exact h1
      · intro n1 r1 h1; cases h1
      · intro n1 v1 h1; cases h1
    · obtain ⟨st2, h, g, _, ht, hf, _⟩ :=
        assign_other_inv rt key val tv tonly jx hkt hp htp hto
      refine ⟨st2, by simpa [step, switchChild] using h, g, by simp [ht, entryText], hf, ?_, ?_⟩
      · intro n1 r1 h1; cases h1
      · intro n1 v1 h1; cases h1

theorem steps_inv (rt : Runtime) (es : List Entry) :
    ∀ st, Inv rt st → (∀ e, e ∈ es → e.passable) →
      ∃ st2, steps rt es st = Except.ok st2 ∧ Inv rt st2 ∧
        st2.text_val = accumulate st.text_val es ∧
        (st.text_only = false → st2.text_only = false) ∧
        (∀ n r, Entry.element n r ∈ es → isInherited rt (Key.elem n) = false →
          st2.text_only = false) ∧
        (∀ n v, Entry.attr n v ∈ es → st2.text_only = false) := by
  induction es with
  | nil =>
    intro st hg _
    exact ⟨st, rfl, hg, rfl, fun h => h, by simp, by simp⟩
  | cons e rest ih =>
    intro st hg hpass
    obtain ⟨st1, h1, g1, ht1, hf1, he1, ha1⟩ :=
      step_inv rt st e hg (hpass e (List.mem_cons_self _ _))
    obtain ⟨st2, h2, g2, ht2, hf2, he2, ha2⟩ :=
      ih st1 g1 (fun x hx => hpass x (List.mem_cons_of_mem _ hx))
    refine ⟨st2, by simp [steps, h1, h2], g2, ?_, fun h => hf2 (hf1 h), ?_, ?_⟩
    · rw [ht2, ht1]; rfl
    · intro n r hmem hi
      rcases List.mem_cons.mp hmem with heq | hin
      · exact hf2 (he1 n r heq.symm hi)
      · exact he2 n r hin hi
    · intro n v hmem
      rcases List.mem_cons.mp hmem with heq | hin
      · exact hf2 (ha1 n v heq.symm)
      · exact ha2 n v hin

theorem accumulate_no_cdata (p : JXONParser) (rt : Runtime) (l : List XmlNode)
    (h : ∀ n, n ∈ l → n.nodeType ≠ 4) :
    ∀ acc, accumulate acc (l.map (entryOf p rt)) = acc ++ trimmedTextConcat l := by
  induction l with
  | nil => intro acc; simp [accumulate, trimmedTextConcat]
  | cons n rest ih =>
    intro acc
    have ih1 := ih (fun x hx => h x (List.mem_cons_of_mem _ hx))
    have hn := h n (List.mem_cons_self _ _)
    cases n with
    | element nm as cs => simp [accumulate, entryOf, entryText, trimmedTextConcat, ih1]
    | text v =>
      simp [accumulate, entryOf, entryText, trimmedTextConcat, ih1, String.append_assoc]
    | cdata v => simp [XmlNode.nodeType] at hn
    | processingInstruction t d =>
      simp [accumulate, entryOf, entryText, trimmedTextConcat, ih1]
    | comment d => simp [accumulate, entryOf, entryText, trimmedTextConcat, ih1]

theorem loop_eq_steps_of (rt : Runtime) (length : Nat) (es : List Entry)
    (h : ∀ e, e ∈ es → ¬ (length = 1 ∧ e.nodeType ≠ 1)) :
    ∀ st, loop rt length es st = (steps rt es st).map Flow.next := by
  induction es with
  | nil => intro st; rfl
  | cons e rest ih =>
    intro st
    have he := h e (List.mem_cons_self _ _)
    simp only [loop, iteration, steps, step, he, if_false]
    cases switchChild rt st e with
    | error x => rfl
    | ok st1 =>
      simp only []
      cases assign rt st1 with
      | error x => rfl
      | ok st2 => simp only [ih (fun x hx => h x (List.mem_cons_of_mem _ hx))]

theorem parseEntries_of_steps_of (p : JXONParser) (rt : Runtime) (es : List Entry)
    (hne : es ≠ []) (h : ∀ e, e ∈ es → ¬ (es.length = 1 ∧ e.nodeType ≠ 1))
    (st : LoopState) (hst : steps rt es LoopState.init = Except.ok st) :
    parseEntries p rt es =
      if st.text_only then convertValue rt (getProp rt st.jxon Key.text)
      else Except.ok (JVal.obj st.jxon) := by
  have h0 : es.length ≠ 0 := by
    intro hl
    exact hne (List.length_eq_zero.mp hl)
  simp [parseEntries, h0, loop_eq_steps_of rt es.length es h, hst, Except.map]

theorem convertValue_undefined_cases (rt : Runtime) :
    convertValue rt JVal.undefined = Except.ok JVal.invalidDate ∨
    convertValue rt JVal.undefined = Except.ok JVal.undefined := by
  by_cases h : rt.dateParse "undefined" = true
  · left; simp [convertValue, h]
  · right; simp [convertValue, h]

/-- C16: for an element that has at least one child element and no CDATA
sections, `parseNode` returns a value, and when the value is an object, the
object has the key `#text` if and only if the concatenation, in document
order, of the trimmed values of its text nodes is not empty, and `#text` then
holds that concatenation as a string; the value is an object as soon as the
element has an attribute or a child element whose name is not found on the
prototype chain.  The child elements are taken to be transformed without
exception and not to be named `__proto__`. -/
theorem C16_text_key_next_to_child_elements (p : JXONParser) (rt : Runtime)
    (name : String) (attrs : List Attr) (ks : NodeList)
    (helem : ∃ n, n ∈ ks.toList ∧ n.nodeType = 1)
    (hcd : ∀ n, n ∈ ks.toList → n.nodeType ≠ 4)
    (hpass : ∀ n, n ∈ ks.toList → (entryOf p rt n).passable) :
    ∃ v, parseNode p rt (XmlNode.element name attrs ks) = Except.ok v ∧
      (∀ props, v = JVal.obj props →
        ownProp props Key.text =
          if trimmedTextConcat ks.toList = "" then none
          else some (JVal.str (trimmedTextConcat ks.toList))) ∧
      ((attrs ≠ [] ∨ ∃ nm as cs, XmlNode.element nm as cs ∈ ks.toList ∧
          isInherited rt (Key.elem nm) = false) → ∃ props, v = JVal.obj props) := by
  have hpassAll : ∀ e, e ∈ attrs.map attrEntry ++ ks.toList.map (entryOf p rt) →
      e.passable := by
    intro e he
    rcases List.mem_append.mp he with h | h
    · obtain ⟨a, _, rfl⟩ := List.mem_map.mp h
      trivial
    · obtain ⟨n, hn, rfl⟩ := List.mem_map.mp h
      exact hpass n hn
  obtain ⟨m, hm, hm1⟩ := helem
  have hmEntry : (entryOf p rt m).nodeType = 1 := by
    cases m <;> simp_all [entryOf, Entry.nodeType, XmlNode.nodeType]
  have hmMem : entryOf p rt m ∈ attrs.map attrEntry ++ ks.toList.map (entryOf p rt) :=
    List.mem_append_right _ (List.mem_map.mpr ⟨m, hm, rfl⟩)
  have hne : attrs.map attrEntry ++ ks.toList.map (entryOf p rt) ≠ [] :=
    List.ne_nil_of_mem hmMem
  have hshort : ∀ e, e ∈ attrs.map attrEntry ++ ks.toList.map (entryOf p rt) →
      ¬ ((attrs.map attrEntry ++ ks.toList.map (entryOf p rt)).length = 1 ∧
        e.nodeType ≠ 1) := by
    rintro e he ⟨hl, hk⟩
    obtain ⟨x, hx⟩ := List.length_eq_one.mp hl
    rw [hx] at he hmMem
    have h1 : e = x := by simpa using he
    have h2 : entryOf p rt m = x := by simpa using hmMem
    rw [h1, ← h2] at hk
    exact hk hmEntry
  obtain ⟨st, hst, g, htv, _, hel, hat⟩ :=
    steps_inv rt _ LoopState.init (inv_init rt) hpassAll
  have hacc : st.text_val = trimmedTextConcat ks.toList := by
    rw [htv, accumulate_append, accumulate_silent _ (attrs.map attrEntry),
      accumulate_no_cdata p rt ks.toList hcd]
    · simp [LoopState.init]
    · intro e he
      obtain ⟨a, _, rfl⟩ := List.mem_map.mp he
      rfl
  have hprop := g.textProp
  rw [hacc] at hprop
  have hparse := parseEntries_of_steps_of p rt _ hne hshort st hst
  rw [← parseNode_element p rt name attrs ks] at hparse
  have hobj : (attrs ≠ [] ∨ ∃ nm as cs, XmlNode.element nm as cs ∈ ks.toList ∧
      isInherited rt (Key.elem nm) = false) → st.text_only = false := by
    rintro (ha | ⟨nm, as, cs, hmem, hi⟩)
    · obtain ⟨a, h⟩ := List.exists_mem_of_ne_nil attrs ha
      exact hat a.nodeName a.nodeValue
        (List.mem_append_left _ (List.mem_map.mpr ⟨a, h, rfl⟩))
    · exact hel nm (parseNode p rt (XmlNode.element nm as cs))
        (List.mem_append_right _ (List.mem_map.mpr ⟨_, hmem, rfl⟩)) hi
  by_cases hto : st.text_only = true
  · rw [if_pos hto] at hparse
    by_cases hT : trimmedTextConcat ks.toList = ""
    · have hget : getProp rt st.jxon Key.text = JVal.undefined := by
        simp [getProp, hprop, hT, isInherited]
      rw [hget] at hparse
      rcases convertValue_undefined_cases rt with hc | hc
      · rw [hc] at hparse
        refine ⟨_, hparse, ?_, ?_⟩
        · intro props h; cases h
        · intro h; rw [hobj h] at hto; cases hto
      · rw [hc] at hparse
        refine ⟨_, hparse, ?_, ?_⟩
        · intro props h; cases h
        · intro h; rw [hobj h] at hto; cases hto
    · have hget : getProp rt st.jxon Key.text = JVal.str (trimmedTextConcat ks.toList) := by
        simp [getProp, hprop, hT]
      rw [hget, convertValue_str_ok] at hparse
      refine ⟨_, hparse, ?_, ?_⟩
      · intro props h
        exact absurd h (convertString_ne_obj rt _ props)
      · intro h; rw [hobj h] at hto; cases hto
  · rw [if_neg hto] at hparse
    refine ⟨_, hparse, ?_, fun _ => ⟨_, rfl⟩⟩
    intro props h
    simp only [JVal.obj.injEq] at h
    rw [← h]
    exact hprop

theorem C16_text_key_witness :
    ∃ v, parseNode JXONParser.new Runtime.standard
        (XmlNode.element "root" []
          (NodeList.cons (XmlNode.text " a ")
            (NodeList.cons (XmlNode.element "b" [] NodeList.nil)
              (NodeList.cons (XmlNode.text " ") NodeList.nil)))) = Except.ok v ∧
      (∀ props, v = JVal.obj props →
        ownProp props Key.text =
          if trimmedTextConcat (NodeList.toList
            (NodeList.cons (XmlNode.text " a ")
              (NodeList.cons (XmlNode.element "b" [] NodeList.nil)
                (NodeList.cons (XmlNode.text " ") NodeList.nil)))) = "" then none
          else some (JVal.str (trimmedTextConcat (NodeList.toList
            (NodeList.cons (XmlNode.text " a ")
              (NodeList.cons (XmlNode.element "b" [] NodeList.nil)
                (NodeList.cons (XmlNode.text " ") NodeList.nil))))))) ∧
      (((([] : List Attr) ≠ []) ∨ ∃ nm as cs, XmlNode.element nm as cs ∈ NodeList.toList
            (NodeList.cons (XmlNode.text " a ")
              (NodeList.cons (XmlNode.element "b" [] NodeList.nil)
                (NodeList.cons (XmlNode.text " ") NodeList.nil))) ∧
          isInherited Runtime.standard (Key.elem nm) = false) → ∃ props, v = JVal.obj props) :=
  C16_text_key_next_to_child_elements JXONParser.new Runtime.standard "root" []
    (NodeList.cons (XmlNode.text " a ")
      (NodeList.cons (XmlNode.element "b" [] NodeList.nil)
        (NodeList.cons (XmlNode.text " ") NodeList.nil)))
    ⟨XmlNode.element "b" [] NodeList.nil, by simp [NodeList.toList], rfl⟩
    (by
      intro n hn
      simp [NodeList.toList] at hn
      rcases hn with h | h | h <;> subst h <;> simp [XmlNode.nodeType])
    (by
      intro n hn
      simp [NodeList.toList] at hn
      rcases hn with h | h | h <;> subst h
      · trivial
      · exact ⟨⟨JVal.null, rfl⟩, by decide⟩
      · trivial)

end JXON
